import Mathlib

/-!
Verification of the reg/fish indexing and statistics engine (`regfish.py`).

The development shallowly embeds the parts of the source that the claims
touch.  Python strings are modelled as `List Char` (`PyStr`), Python `float`
values as exact decimals `PyFloat` (a pair `num / 10 ^ exp`, kept in the
canonical form with no trailing factor of ten — every IEEE double is a dyadic
rational and hence has such a representation, so the reachable value range of
the source's floats is covered), Python `int` as `ℤ`, raised exceptions as
`Except Err`.  Python `dict` / `Counter` (insertion ordered) are modelled as
association lists updated in place; Python `set` is modelled as an
insertion-ordered duplicate-free list (its iteration order is unspecified in
Python; the model's choices only matter where the source draws an arbitrary
element out of a set with more than one element).
-/

deriving instance DecidableEq for Except

abbrev PyStr := List Char

/-- Character list of a Lean string literal; used to write `PyStr` constants. -/
def chars (s : String) : PyStr := s.data

/-- Whitespace test of Python `str.strip` (the ASCII part; the source's data
is ASCII). -/
def pyIsSpace (c : Char) : Bool :=
  c == ' ' || c == '\t' || c == '\n' || c == '\r' || c == '\x0b' || c == '\x0c'

/-- Python `str.strip()` with no argument: drop whitespace at both ends. -/
def pyStrip (s : PyStr) : PyStr :=
  ((s.dropWhile pyIsSpace).reverse.dropWhile pyIsSpace).reverse

/-- Python `s.split(sep)` for a one-character separator `sep`. -/
def pySplitC (sep : Char) : PyStr → List PyStr
  | [] => [[]]
  | c :: cs =>
    match pySplitC sep cs with
    | [] => [[]]
    | r :: rs => if c = sep then [] :: r :: rs else (c :: r) :: rs

/-- Python `s.split()` with no argument: split on whitespace runs, dropping
empty pieces. -/
def pySplitWs : PyStr → List PyStr
  | [] => []
  | c :: cs =>
    let r := pySplitWs cs
    if pyIsSpace c then r
    else
      match cs with
      | [] => [[c]]
      | d :: _ =>
        if pyIsSpace d then [c] :: r
        else
          match r with
          | [] => [[c]]
          | w :: ws => (c :: w) :: ws

/-- Python `sub in s` (substring containment). -/
def pyContainsSub (sub s : PyStr) : Bool :=
  match s with
  | [] => decide (sub = [])
  | _ :: cs => sub.isPrefixOf s || pyContainsSub sub cs

/-- Python `s.startswith(p)`. -/
def pyStarts (p s : PyStr) : Bool := p.isPrefixOf s

/-- Fuel-driven digit production; `fuel` bounds the number of divisions by
ten, so any `fuel > n` computes all digits of `n`. -/
def natDigitsAux : ℕ → ℕ → List Char
  | 0, _ => []
  | fuel + 1, n =>
    if n < 10 then [Nat.digitChar n]
    else natDigitsAux fuel (n / 10) ++ [Nat.digitChar (n % 10)]

/-- Decimal digit characters of a natural number, most significant first
(model of Python `str(n)` for `n ≥ 0`). -/
def natDigits (n : ℕ) : List Char := natDigitsAux (n + 1) n

/-- Model of Python `str(i)` for an `int`. -/
def intChars (i : ℤ) : PyStr :=
  if i < 0 then '-' :: natDigits i.natAbs else natDigits i.natAbs

/-- Accumulating decimal value of a digit string. -/
def digitsValAux (acc : ℕ) : List Char → ℕ
  | [] => acc
  | c :: cs => digitsValAux (acc * 10 + (c.toNat - 48)) cs

/-- Value of a non-empty all-digit string, `none` otherwise. -/
def pyDigits? (l : PyStr) : Option ℕ :=
  if l.isEmpty then none
  else if l.all Char.isDigit then some (digitsValAux 0 l) else none

/-- Optional sign character at the front of a numeric literal. -/
def pySign (s : PyStr) : Bool × PyStr :=
  match s with
  | [] => (false, [])
  | c :: cs => if c = '-' then (true, cs) else if c = '+' then (false, cs) else (false, c :: cs)

/-- Model of Python `int(s)`: surrounding whitespace, optional sign, a
non-empty run of digits; `none` models the raised `ValueError`. -/
def pyInt? (s : PyStr) : Option ℤ :=
  (pyDigits? (pySign (pyStrip s)).2).map
    (fun n : ℕ => if (pySign (pyStrip s)).1 then -(n : ℤ) else (n : ℤ))

/-- Exact-decimal model of a Python `float`: the value `num / 10 ^ exp`. -/
structure PyFloat where
  num : ℤ
  exp : ℕ
  deriving DecidableEq

/-- Reduce a decimal representation by trailing factors of ten. -/
def canonF : ℤ → ℕ → PyFloat
  | n, 0 => ⟨n, 0⟩
  | n, e + 1 => if n % 10 = 0 then canonF (n.tdiv 10) e else ⟨n, e + 1⟩

/-- A representation with no removable factor of ten; all `PyFloat` values the
embedded program constructs are canonical. -/
def PyFloat.Canonical (v : PyFloat) : Prop := v.exp = 0 ∨ v.num % 10 ≠ 0

instance (v : PyFloat) : Decidable v.Canonical := by
  unfold PyFloat.Canonical; infer_instance

/-- Zero left-padding of a digit string to a target width. -/
def padZeros (l : List Char) (k : ℕ) : List Char :=
  List.replicate (k - l.length) '0' ++ l

/-- Model of Python `str(x)` for a float (positional notation; CPython's
switch to exponent notation for extreme magnitudes is not exercised by the
data this program handles). -/
def floatChars (v : PyFloat) : PyStr :=
  let n := v.num.natAbs
  let body :=
    if v.exp = 0 then natDigits n ++ chars ".0"
    else natDigits (n / 10 ^ v.exp) ++ '.' :: padZeros (natDigits (n % 10 ^ v.exp)) v.exp
  if v.num < 0 then '-' :: body else body

/-- Application of a parsed sign flag to a digit-run value. -/
def pySgn (neg : Bool) (n : ℕ) : ℤ := if neg then -(n : ℤ) else (n : ℤ)

/-- Fractional-part dispatch of the float parser: `ip` is the integer digit
run, the last argument the remainder, which must be empty or a `'.'`-led
all-digit run. -/
def pyFracPart (neg : Bool) (ip : PyStr) : PyStr → Option PyFloat
  | [] => if ip.isEmpty then none else some (canonF (pySgn neg (digitsValAux 0 ip)) 0)
  | c :: frac =>
    if c = '.' ∧ frac.all Char.isDigit ∧ ¬(ip.isEmpty ∧ frac.isEmpty) then
      some (canonF (pySgn neg (digitsValAux 0 ip * 10 ^ frac.length + digitsValAux 0 frac))
        frac.length)
    else none

/-- Body of the float parser, after whitespace stripping and sign splitting:
an integer digit run with an optional `'.'`-led fractional digit run. -/
def pyFloatCore (neg : Bool) (d : PyStr) : Option PyFloat :=
  pyFracPart neg (d.takeWhile Char.isDigit) (d.dropWhile Char.isDigit)

/-- Model of Python `float(s)` on the literal forms the program meets:
whitespace, optional sign, digits with an optional fractional part
(`"5"`, `"5.5"`, `"5."`, `".5"`); anything else — in particular a leading
currency symbol — raises, modelled by `none`. -/
def pyFloat? (s : PyStr) : Option PyFloat :=
  pyFloatCore (pySign (pyStrip s)).1 (pySign (pyStrip s)).2

/-- Addition of two floats (exact on decimals; the magnitudes this program
adds are far below the precision where IEEE addition rounds). -/
def PyFloat.add (a b : PyFloat) : PyFloat :=
  canonF (a.num * 10 ^ b.exp + b.num * 10 ^ a.exp) (a.exp + b.exp)

/-- The comparison `a <= b` on float values. -/
def PyFloat.le (a b : PyFloat) : Bool :=
  decide (a.num * 10 ^ b.exp ≤ b.num * 10 ^ a.exp)

/-- The comparison `a < b` on float values. -/
def PyFloat.ltF (a b : PyFloat) : Bool :=
  decide (a.num * 10 ^ b.exp < b.num * 10 ^ a.exp)

/-- Python `int(x)` on a float: truncation toward zero. -/
def PyFloat.trunc (a : PyFloat) : ℤ := a.num.tdiv (10 ^ a.exp)

/-- Python `int(a / b)`: exact quotient truncated toward zero. -/
def PyFloat.divTrunc (a b : PyFloat) : ℤ :=
  (a.num * 10 ^ b.exp).tdiv (b.num * 10 ^ a.exp)

def pyFloatZero : PyFloat := ⟨0, 0⟩

/-! Domain data model, mirroring the named tuples and enums of the source. -/

/-- Raised Python exceptions. -/
inductive Err
  | fuel
  | stopIteration
  | keyError
  | indexError
  | valueError
  deriving DecidableEq

/-- Lift an optional value into `Except`, tagging the failure. -/
def liftO (e : Err) : Option α → Except Err α
  | some a => .ok a
  | none => .error e

inductive EliminatedType
  | ME
  | OTHER
  | BOTH
  deriving DecidableEq

/-- The `.value` string of the `EliminatedType` enum. -/
def EliminatedType.val : EliminatedType → PyStr
  | .ME => chars "me"
  | .OTHER => chars "other"
  | .BOTH => chars "both"

/-- The `EliminatedType(s)` enum constructor; unknown values raise. -/
def eliminatedTypeOf? (s : PyStr) : Option EliminatedType :=
  if s = chars "me" then some .ME
  else if s = chars "other" then some .OTHER
  else if s = chars "both" then some .BOTH
  else none

structure XA where
  nickname : PyStr
  after_hand : ℤ
  eliminated_by : EliminatedType
  deriving DecidableEq

def NO_XA : XA := ⟨[], -1, .OTHER⟩

structure TableData where
  timestamp : PyStr
  prize_pool : PyFloat
  buy_in : PyFloat
  deriving DecidableEq

structure Player where
  nickname : PyStr
  hands : ℤ
  seat : ℤ
  deriving DecidableEq

structure Table where
  id : ℤ
  table_data : TableData
  seat : ℤ
  players : List Player
  xa : XA
  lost_after_hand : ℤ
  deriving DecidableEq

structure IndexedPlayer where
  nickname : PyStr
  tables : ℤ
  hands : ℤ
  deriving DecidableEq

inductive PlayerType
  | REG
  | FISH
  deriving DecidableEq

inductive CalcMode
  | TABLES
  | HANDS
  deriving DecidableEq

structure TableFileMeta where
  id : ℤ
  tsdata_file : PyStr
  data_files : List PyStr
  deriving DecidableEq

structure TableStat where
  file_meta : TableFileMeta
  buy_in_mp : PyStr
  xa_after_hand : ℤ
  eliminated_by : EliminatedType
  lost_after_hand : ℤ
  is_reg_left : Option Bool
  deriving DecidableEq

/-! Association-list models of Python `dict` / `Counter` / `set` (all
insertion ordered). -/

/-- Lookup in an insertion-ordered association list. -/
def assocGet? (l : List (PyStr × α)) (k : PyStr) : Option α :=
  (l.find? (fun p => p.1 = k)).map Prod.snd

/-- `Counter[k] += v`: update in place, or append a fresh key at the end. -/
def counterAdd : List (PyStr × ℤ) → PyStr → ℤ → List (PyStr × ℤ)
  | [], k, v => [(k, v)]
  | (k', v') :: rest, k, v =>
    if k' = k then (k', v' + v) :: rest else (k', v') :: counterAdd rest k v

/-- `Counter[k] += 1`. -/
def counterInc (l : List (PyStr × ℤ)) (k : PyStr) : List (PyStr × ℤ) := counterAdd l k 1

/-- `set.add`: append if not already present. -/
def addNew (l : List PyStr) (x : PyStr) : List PyStr := if x ∈ l then l else l ++ [x]

/-- `dict[k] = v` on the seats dictionary, guarded by `len(seats) < 3` as in
the source: once three distinct nicknames are stored, nothing is written. -/
def seatsUpdate (seats : List (PyStr × ℤ)) (nickname : PyStr) (seat : ℤ) : List (PyStr × ℤ) :=
  if seats.length < 3 then
    if seats.any (fun p => p.1 = nickname) then
      seats.map (fun p => if p.1 = nickname then (p.1, seat) else p)
    else seats ++ [(nickname, seat)]
  else seats

/-! The raw record parser (`parse_*` functions of the source). -/

def is_data_file (file : PyStr) : Bool := pyStarts (chars "Expresso Nitro") file

def is_tsdata_file (file : PyStr) : Bool :=
  pyContainsSub (chars "Expresso Nitro") file && pyContainsSub (chars "limit_summary") file

/-- Source `parse_table_id`: `int(file.split("(")[1].split(")")[0])`. -/
def parse_table_id (file : PyStr) : Except Err ℤ := do
  let p1 ← liftO .indexError ((pySplitC '(' file).get? 1)
  let p0 ← liftO .indexError ((pySplitC ')' p1).get? 0)
  liftO .valueError (pyInt? p0)

/-- Source `parse_price`: `float(price.strip()[:-1])` — strip whitespace,
drop exactly one trailing character, parse as float. -/
def parse_price (price : PyStr) : Option PyFloat := pyFloat? (pyStrip price).dropLast

/-- Source `parse_buy_in`: split the text after the first `:` on `+`, parse
each token with `parse_price`, sum. -/
def parse_buy_in (line : PyStr) : Option PyFloat := do
  let rest ← (pySplitC ':' line).get? 1
  let vals ← (pySplitC '+' rest).mapM parse_price
  return vals.foldl PyFloat.add pyFloatZero

/-- Source `parse_prize_pool`. -/
def parse_prize_pool (line : PyStr) : Option PyFloat := do
  let rest ← (pySplitC ':' line).get? 1
  parse_price rest

/-- Python `sep.join(parts)`. -/
def pyJoinSep (sep : PyStr) : List PyStr → PyStr
  | [] => []
  | [x] => x
  | x :: y :: rest => x ++ sep ++ pyJoinSep sep (y :: rest)

/-- Join a token list with single spaces (`" ".join`). -/
def joinSpace (l : List PyStr) : PyStr := pyJoinSep [' '] l

/-- Source `parse_tournament_started`: `"{} {}".format(split[2], split[3])`. -/
def parse_tournament_started (line : PyStr) : Option PyStr := do
  let ts ← (pySplitWs line).get? 2
  let tm ← (pySplitWs line).get? 3
  return pyStrip ts ++ ' ' :: pyStrip tm

/-- Source `parse_seat_nickname`: seat number from `split[1][:-1]`, nickname
from tokens 2 through second-to-last. -/
def parse_seat_nickname (line : PyStr) : Option (ℤ × PyStr) := do
  let toks := pySplitWs (pyStrip line)
  let t1 ← toks.get? 1
  let seat ← pyInt? t1.dropLast
  return (seat, joinSpace (toks.drop 2).dropLast)

/-- Source `parse_nickname_summary`: cut at the first `(` (or drop the last
character when there is none, as `find` returns `-1`), then join tokens from
index 2 on. -/
def parse_nickname_summary (line : PyStr) : PyStr :=
  let cut := match line.findIdx? (fun c => c = '(') with
    | some i => line.take i
    | none => line.dropLast
  joinSpace ((pySplitWs (pyStrip cut)).drop 2)

/-! The hand-history scanner (`IndexCreator.__get_data__`). -/

/-- Scanner state threaded through the line loop of `__get_data__`. -/
structure ScanSt where
  xa : Option XA
  seats : List (PyStr × ℤ)
  counter : List (PyStr × ℤ)
  handCount : ℕ
  prevHand : List PyStr
  deriving DecidableEq

/-- One run of consecutive `Seat` lines: update the seats dictionary and the
per-nickname hand counter, and collect the hand's nickname set. -/
def processSeatLines (selfN : List PyStr) :
    List PyStr → List (PyStr × ℤ) × List (PyStr × ℤ) × List PyStr →
    Except Err (List (PyStr × ℤ) × List (PyStr × ℤ) × List PyStr)
  | [], st => .ok st
  | line :: rest, (seats, counter, xaNicks) =>
    match parse_seat_nickname line with
    | none => .error .valueError
    | some (seat, nickname) =>
      processSeatLines selfN rest
        (seatsUpdate seats nickname seat,
         if nickname ∈ selfN then counter else counterInc counter nickname,
         addNew xaNicks nickname)

/-- Elimination-event detection of `__get_data__` (source lines 263-272):
fires only while no event is recorded yet, when the current hand's nickname
set holds exactly one self nickname and exactly two nicknames in total. -/
def xaCheck (selfN : List PyStr) (xaO : Option XA) (xaNicks : List PyStr)
    (prevHand : List PyStr) (handCount : ℕ) : Option XA :=
  let xa_inter := xaNicks.filter (fun n => decide (n ∈ selfN))
  if xaO = none ∧ xa_inter.length = 1 ∧ xaNicks.length = 2 then
    let nickname := (xaNicks.filter (fun n => decide (n ∉ xa_inter))).headI
    let elim_nicks := xaNicks.filter (fun n => decide (n ∈ prevHand))
    let eliminated_by :=
      if elim_nicks.length > 1 then EliminatedType.BOTH
      else if (elim_nicks.filter (fun n => decide (n ∈ selfN))) ≠ [] then EliminatedType.ME
      else EliminatedType.OTHER
    some ⟨nickname, (handCount : ℤ), eliminated_by⟩
  else xaO

/-- Blank-line test: `not bool(line.strip())`. -/
def isBlankLine (s : PyStr) : Bool := (pyStrip s).isEmpty

def startsSeat (s : PyStr) : Bool := pyStarts (chars "Seat") s

/-- The outer `while i < len(lines)` loop of `__get_data__`.  Each iteration
consumes at least one line, so `lines.length + 1` fuel always suffices; the
`fuel` error is unreachable from `get_data`. -/
def scanHands (selfN : List PyStr) : ℕ → List PyStr → ScanSt → Except Err ScanSt
  | 0, _, _ => .error .fuel
  | _ + 1, [], st => .ok st
  | fuel + 1, lines, st => do
    let l1 := lines.dropWhile isBlankLine
    let l2 := l1.dropWhile (fun s => !startsSeat s)
    let seatLines := l2.takeWhile startsSeat
    let l3 := l2.dropWhile startsSeat
    let (seats, counter, xaNicks) ← processSeatLines selfN seatLines (st.seats, st.counter, [])
    let xa := xaCheck selfN st.xa xaNicks st.prevHand st.handCount
    let l4 := l3.dropWhile (fun s => !startsSeat s)
    let sumLines := l4.takeWhile startsSeat
    let l5 := l4.dropWhile startsSeat
    let prev := sumLines.foldl (fun acc ln => addNew acc (parse_nickname_summary ln)) []
    let l6 := l5.dropWhile (fun s => !isBlankLine s)
    scanHands selfN fuel l6 ⟨xa, seats, counter, st.handCount + 1, prev⟩

/-- Source `__get_data__` on the concatenated lines of a table's hand files:
scan all hands, then look up the seat of a tracked self nickname
(`seats[next(iter(self_nicknames.intersection(seats)))]` — a `StopIteration`
is raised when no self nickname was ever seated among the first three), and
build the player list from the counter (a `KeyError` is raised for a counted
nickname outside the seats dictionary). -/
def get_data (selfN : List PyStr) (lines : List PyStr) :
    Except Err (ℤ × List Player × XA × ℕ) := do
  let st ← scanHands selfN (lines.length + 1) lines ⟨none, [], [], 0, []⟩
  match st.seats.filter (fun p => decide (p.1 ∈ selfN)) with
  | [] => .error .stopIteration
  | (_, seat) :: _ =>
    match st.counter.mapM (fun p =>
        (assocGet? st.seats p.1).map (fun s => Player.mk p.1 p.2 s)) with
    | none => .error .keyError
    | some players => .ok (seat, players, st.xa.getD NO_XA, st.handCount)

/-! The index builder (`IndexCreator`). -/

/-- File-system snapshot and configuration an indexing run reads: the
directory walks (root, filename) and the line contents of every path. -/
structure Env where
  dataWalk : List (PyStr × PyStr)
  tsWalk : List (PyStr × PyStr)
  fileLines : PyStr → List PyStr
  selfNicknames : List PyStr

/-- `os.path.join(root, file)` on a POSIX system (`is_windows()` false). -/
def pyJoin (root file : PyStr) : PyStr := root ++ '/' :: file

/-- `defaultdict(set)` insertion: add a path to the id's set, appending a
fresh key at the end on first sight. -/
def setAdd : List (ℤ × List PyStr) → ℤ → PyStr → List (ℤ × List PyStr)
  | [], tid, path => [(tid, [path])]
  | (k, paths) :: rest, tid, path =>
    if k = tid then (k, if path ∈ paths then paths else paths ++ [path]) :: rest
    else (k, paths) :: setAdd rest tid path

/-- `dict` assignment: overwrite in place or append a fresh key. -/
def dictSet : List (ℤ × PyStr) → ℤ → PyStr → List (ℤ × PyStr)
  | [], tid, path => [(tid, path)]
  | (k, v) :: rest, tid, path =>
    if k = tid then (k, path) :: rest else (k, v) :: dictSet rest tid path

def intAssocGet? (l : List (ℤ × α)) (k : ℤ) : Option α :=
  (l.find? (fun p => p.1 = k)).map Prod.snd

/-- The hand-file index of `__get_files_to_index__`: walk, filter by
`is_data_file`, group full paths by parsed table id. -/
def get_data_file_idx (walk : List (PyStr × PyStr)) : Except Err (List (ℤ × List PyStr)) :=
  (walk.filter (fun rf => is_data_file rf.2)).foldlM
    (fun acc rf => do
      let tid ← parse_table_id rf.2
      .ok (setAdd acc tid (pyJoin rf.1 rf.2)))
    []

/-- The summary-file index of `__get_files_to_index__`. -/
def get_tsdata_file_idx (walk : List (PyStr × PyStr)) : Except Err (List (ℤ × PyStr)) :=
  (walk.filter (fun rf => is_tsdata_file rf.2)).foldlM
    (fun acc rf => do
      let tid ← parse_table_id rf.2
      .ok (dictSet acc tid (pyJoin rf.1 rf.2)))
    []

/-- Source `__get_files_to_index__`: every summary file with at least one
matching hand file becomes a `TableFileMeta`; a summary file without hand
files is skipped with a warning.  The source never reads a checkpoint here:
the walks are filtered by filename shape only, never by table id. -/
def get_files_to_index (env : Env) : Except Err (List TableFileMeta) := do
  let dataIdx ← get_data_file_idx env.dataWalk
  let tsIdx ← get_tsdata_file_idx env.tsWalk
  .ok (tsIdx.filterMap (fun kv =>
    match (intAssocGet? dataIdx kv.1).getD [] with
    | [] => none
    | fs => some ⟨kv.1, kv.2, fs⟩))

/-- Path components, numeric where they parse as `int` (source `parse_int`). -/
inductive PathComp
  | int (i : ℤ)
  | str (s : PyStr)
  deriving DecidableEq

def parse_int_comp (s : PyStr) : PathComp :=
  match pyInt? s with
  | some i => .int i
  | none => .str s

/-- Lexicographic `<=` on character lists: the model of Python string
comparison (code-point order). -/
def charListLe : PyStr → PyStr → Bool
  | [], _ => true
  | _ :: _, [] => false
  | a :: as, b :: bs => if a = b then charListLe as bs else decide (a < b)

/-- Strict order on path components.  Python raises `TypeError` on an
int/str comparison; that case is unreachable for the homogeneous path shapes
the program walks, and the model totalises it by putting ints first. -/
def compLt : PathComp → PathComp → Bool
  | .int i, .int j => decide (i < j)
  | .str a, .str b => charListLe a b && !(decide (a = b))
  | .int _, .str _ => true
  | .str _, .int _ => false

/-- Python tuple comparison, strict. -/
def compListLt : List PathComp → List PathComp → Bool
  | [], [] => false
  | [], _ :: _ => true
  | _ :: _, [] => false
  | a :: as, b :: bs => if a = b then compListLt as bs else compLt a b

def pathLe (x y : List PathComp) : Bool := !compListLt y x

def insertSorted (le : α → α → Bool) (x : α) : List α → List α
  | [] => [x]
  | y :: ys => if le x y then x :: y :: ys else y :: insertSorted le x ys

def sortBy (le : α → α → Bool) : List α → List α
  | [] => []
  | x :: xs => insertSorted le x (sortBy le xs)

def comp_to_chars : PathComp → PyStr
  | .int i => intChars i
  | .str s => s

/-- Source `sorted_data_files` (POSIX branch): split each path on the
separator, parse numeric components, sort the tuples, re-join with `str`
applied to every component. -/
def sorted_data_files (data_files : List PyStr) : List PyStr :=
  (sortBy pathLe (data_files.map (fun f => (pySplitC '/' f).map parse_int_comp))).map
    (fun tup => pyJoinSep ['/'] (tup.map comp_to_chars))

/-! Summary parsing and table assembly (`__get_table_data__`, `__get_tables__`). -/

/-- Accumulator of the line loop in `__get_table_data__`. -/
structure TDAcc where
  buy_in : Option PyFloat
  prize_pool : Option PyFloat
  timestamp : Option PyStr
  won : Bool
  deriving DecidableEq

/-- One line of the summary scan: the four recognized prefixes, in source
order; a failing parse of a recognized line raises. -/
def get_table_data_step (acc : TDAcc) (line : PyStr) : Except Err TDAcc :=
  if pyStarts (chars "Buy-In") line then
    match parse_buy_in line with
    | some b => .ok { acc with buy_in := some b }
    | none => .error .valueError
  else if pyStarts (chars "Prizepool") line then
    match parse_prize_pool line with
    | some p => .ok { acc with prize_pool := some p }
    | none => .error .valueError
  else if pyStarts (chars "Tournament started") line then
    match parse_tournament_started line with
    | some t => .ok { acc with timestamp := some t }
    | none => .error .indexError
  else if pyStarts (chars "You won") line then .ok { acc with won := true }
  else .ok acc

/-- Source `__get_table_data__`: scan all lines once; return `none` in the
first component exactly when one of the three required fields never got set. -/
def get_table_data (lines : List PyStr) : Except Err (Option TableData × Bool) := do
  let acc ← lines.foldlM get_table_data_step ⟨none, none, none, false⟩
  match acc.buy_in, acc.prize_pool, acc.timestamp with
  | some b, some p, some t => .ok (some ⟨t, p, b⟩, acc.won)
  | _, _, _ => .ok (none, acc.won)

/-- Source `__get_tables__`: parse each meta's summary; a summary yielding no
table data is skipped with a warning (the hand files are not even opened);
otherwise scan the concatenated sorted hand files and assemble the `Table`.
`lost_after_hand` is `0` when a `You won` line was seen, else the hand count. -/
def get_tables (env : Env) : List TableFileMeta → Except Err (List Table)
  | [] => .ok []
  | m :: ms => do
    let r ← get_table_data (env.fileLines m.tsdata_file)
    match r with
    | (none, _) => get_tables env ms
    | (some td, won) => do
      let lines := ((sorted_data_files m.data_files).map env.fileLines).flatten
      let d ← get_data env.selfNicknames lines
      let rest ← get_tables env ms
      .ok (⟨m.id, td, d.1, d.2.1, d.2.2.1, if won then 0 else (d.2.2.2 : ℤ)⟩ :: rest)

/-- Source `__get_indexed_players__`: two counters over all tables' players
(tables seen, hands summed), then one `IndexedPlayer` per nickname in
first-seen order. -/
def get_indexed_players (tables : List Table) : List IndexedPlayer :=
  let counters := tables.foldl
    (fun (acc : List (PyStr × ℤ) × List (PyStr × ℤ)) t =>
      t.players.foldl
        (fun acc p => (counterInc acc.1 p.nickname, counterAdd acc.2 p.nickname p.hands))
        acc)
    ([], [])
  counters.1.map (fun kv => ⟨kv.1, kv.2, (assocGet? counters.2 kv.1).getD 0⟩)

/-! Serialization of the persisted index and player files. -/

/-- One `nickname:hands:seat` player field of an index line. -/
def serialize_player_field (p : Player) : PyStr :=
  pyJoinSep [':'] [p.nickname, intChars p.hands, intChars p.seat]

/-- Source `serialize_table`: the eight `|`-separated fields
`id|timestamp|prizePool|buyIn|seat|players|xaNick:xaAfter:xaElim|lostAfterHand`. -/
def serialize_table (t : Table) : PyStr :=
  pyJoinSep ['|']
    [intChars t.id,
     t.table_data.timestamp,
     floatChars t.table_data.prize_pool,
     floatChars t.table_data.buy_in,
     intChars t.seat,
     pyJoinSep [','] (t.players.map serialize_player_field),
     pyJoinSep [':'] [t.xa.nickname, intChars t.xa.after_hand, t.xa.eliminated_by.val],
     intChars t.lost_after_hand]

/-- One `nickname:hands:seat` field back to a `Player`; any other shape
raises. -/
def deserialize_player (s : PyStr) : Except Err Player :=
  match pySplitC ':' s with
  | [nickname, hands, seat] => do
    let h ← liftO .valueError (pyInt? hands)
    let st ← liftO .valueError (pyInt? seat)
    .ok ⟨pyStrip nickname, h, st⟩
  | _ => .error .valueError

/-- Source `deserialize_table`: split on `|` into exactly eight fields, the
players field on `,`, each player and the elimination field on `:`. -/
def deserialize_table (line : PyStr) : Except Err Table :=
  match pySplitC '|' line with
  | [tid, ts, pp, bi, seat, players_str, xa_str, lost] => do
    let ppv ← liftO .valueError (pyFloat? pp)
    let biv ← liftO .valueError (pyFloat? bi)
    let players ← (pySplitC ',' players_str).mapM deserialize_player
    let xa ← match pySplitC ':' xa_str with
      | [xn, xah, xel] => do
        let ah ← liftO .valueError (pyInt? xah)
        let el ← liftO .valueError (eliminatedTypeOf? xel)
        .ok (XA.mk (pyStrip xn) ah el)
      | _ => .error .valueError
    let tidv ← liftO .valueError (pyInt? tid)
    let seatv ← liftO .valueError (pyInt? seat)
    let lostv ← liftO .valueError (pyInt? lost)
    .ok ⟨tidv, ⟨ts, ppv, biv⟩, seatv, players, xa, lostv⟩
  | _ => .error .valueError

/-- Source `serialize_indexed_player`: `nickname|tables|hands` — three
fields, nothing else. -/
def serialize_indexed_player (p : IndexedPlayer) : PyStr :=
  pyJoinSep ['|'] [p.nickname, intChars p.tables, intChars p.hands]

/-- Source `deserialized_indexed_player`. -/
def deserialized_indexed_player (line : PyStr) : Except Err IndexedPlayer :=
  match pySplitC '|' line with
  | [nickname, tables, hands] => do
    let t ← liftO .valueError (pyInt? tables)
    let h ← liftO .valueError (pyInt? hands)
    .ok ⟨pyStrip nickname, t, h⟩
  | _ => .error .valueError

/-- On-disk contents of the two result files the index run writes. -/
structure Store where
  indexContent : PyStr
  playerContent : PyStr
  deriving DecidableEq

/-- Contents `__write_index__` puts into the index file: one serialized table
per line.  The file is opened with mode `"w"`, so previous contents never
enter. -/
def index_content (tables : List Table) : PyStr :=
  (tables.map (fun t => serialize_table t ++ ['\n'])).flatten

/-- Contents `__write_index__` puts into the player file (also mode `"w"`). -/
def player_content (ps : List IndexedPlayer) : PyStr :=
  (ps.map (fun p => serialize_indexed_player p ++ ['\n'])).flatten

/-- One full `IndexCreator.index()` run.  The previous store is a parameter
only to expose that the source never reads it: both writes open their file
with mode `"w"` and no checkpoint file exists anywhere in the program. -/
def index_run (env : Env) (_store : Store) : Except Err Store := do
  let files ← get_files_to_index env
  let tables ← get_tables env files
  .ok ⟨index_content tables, player_content (get_indexed_players tables)⟩

/-! The classifier and the FULL statistics pass
(`AbstractStatisticCalculator.__is_reg__`, `FullStatisticCalculator.__get_stats__`). -/

/-- Source `__is_reg__`: a color marker decides alone when present; otherwise
a nickname absent from the player store is never a reg; otherwise compare the
cumulative count of the active mode against its threshold. -/
def is_reg (players : PyStr → Option IndexedPlayer) (colored : PyStr → Option PlayerType)
    (nickname : PyStr) (calcmode : CalcMode) (regtables reghands : ℤ) : Bool :=
  match colored nickname with
  | some c => decide (c = PlayerType.REG)
  | none =>
    match players nickname with
    | none => false
    | some p =>
      match calcmode with
      | .TABLES => decide (p.tables ≥ regtables)
      | .HANDS => decide (p.hands ≥ reghands)

/-- Source `interval_filter`: `interval[0] <= table.timestamp <= interval[1]`
— Python chained string comparison, both ends inclusive. -/
def interval_filter (interval : PyStr × PyStr) (t : Table) : Bool :=
  charListLe interval.1 t.table_data.timestamp && charListLe t.table_data.timestamp interval.2

/-- Source `buyin_filter`: `int(table.buy_in) == int(buyin)`. -/
def buyin_filter (buyin : PyFloat) (t : Table) : Bool :=
  decide (t.table_data.buy_in.trunc = buyin.trunc)

/-- The filter pipeline of `__get_stats__`: the interval filter plus the
optional buy-in filter; survival means all of them hold. -/
def passes_filters (interval : PyStr × PyStr) (buyin : Option PyFloat) (t : Table) : Bool :=
  interval_filter interval t &&
    (match buyin with
     | none => true
     | some b => buyin_filter b t)

/-- Source `get_buy_in_mp`. -/
def get_buy_in_mp (t : Table) (buyinsort : List ℤ) : PyStr :=
  let mp : ℤ :=
    if pyFloatZero.ltF t.table_data.buy_in then
      PyFloat.divTrunc t.table_data.prize_pool t.table_data.buy_in
    else 0
  if mp ∈ buyinsort then 'x' :: intChars mp else chars "rest"

/-- Source `is_reg_left`: only meaningful for the `(1, 1)` bucket, where a
reg player is always present. -/
def is_reg_left (t : Table) (reg_player : Option Player) (key : ℕ × ℕ) : Option Bool :=
  if key = (1, 1) then
    match reg_player with
    | some p => some (decide ((t.seat % 3) + 1 = p.seat))
    | none => none
  else none

/-- The per-table player loop of `__get_stats__`: count regs and fish,
remember the last reg player, and extend the cross-table memo set `regs`. -/
def classify_players (players : PyStr → Option IndexedPlayer)
    (colored : PyStr → Option PlayerType) (calcmode : CalcMode) (regtables reghands : ℤ) :
    List Player → ℕ × ℕ × Option Player × List PyStr → ℕ × ℕ × Option Player × List PyStr
  | [], acc => acc
  | p :: rest, (reg, fish, reg_player, regs) =>
    if p.nickname ∈ regs then
      classify_players players colored calcmode regtables reghands rest
        (reg + 1, fish, some p, regs)
    else if is_reg players colored p.nickname calcmode regtables reghands then
      classify_players players colored calcmode regtables reghands rest
        (reg + 1, fish, some p, regs ++ [p.nickname])
    else
      classify_players players colored calcmode regtables reghands rest
        (reg, fish + 1, reg_player, regs)

/-- Accumulator of the file loop in `__get_stats__`.  `table_stats` is the
`defaultdict(list)` flattened into append order: one `(key, stat)` pair per
surviving table. -/
structure StatsAcc where
  table_stats : List ((ℕ × ℕ) × TableStat)
  regs : List PyStr
  filter_count : ℕ
  filter_out_count : ℕ
  not_found_count : ℕ
  deriving DecidableEq

/-- One iteration of the file loop in `__get_stats__` (source lines 534-569,
minus the report accumulation, which feeds a separate output and touches
neither `table_stats` nor any state this development reasons about). -/
def get_stats_step (index : ℤ → Option Table) (players : PyStr → Option IndexedPlayer)
    (colored : PyStr → Option PlayerType) (calcmode : CalcMode) (regtables reghands : ℤ)
    (interval : PyStr × PyStr) (buyin : Option PyFloat) (buyinsort : List ℤ)
    (acc : StatsAcc) (f : TableFileMeta) : StatsAcc :=
  match index f.id with
  | none => { acc with not_found_count := acc.not_found_count + 1 }
  | some t =>
    if ¬ passes_filters interval buyin t then
      { acc with filter_out_count := acc.filter_out_count + 1 }
    else
      let c := classify_players players colored calcmode regtables reghands t.players
        (0, 0, none, acc.regs)
      let key := (c.1, c.2.1)
      let xa_after_hand : ℤ := if t.xa.nickname ∈ c.2.2.2 then -1 else t.xa.after_hand
      let stat : TableStat :=
        ⟨f, get_buy_in_mp t buyinsort, xa_after_hand, t.xa.eliminated_by, t.lost_after_hand,
          is_reg_left t c.2.2.1 key⟩
      { acc with
          table_stats := acc.table_stats ++ [(key, stat)],
          regs := c.2.2.2,
          filter_count := acc.filter_count + 1 }

/-- Source `FullStatisticCalculator.__get_stats__` over the in-memory index. -/
def get_stats (index : ℤ → Option Table) (players : PyStr → Option IndexedPlayer)
    (colored : PyStr → Option PlayerType) (calcmode : CalcMode) (regtables reghands : ℤ)
    (interval : PyStr × PyStr) (buyin : Option PyFloat) (buyinsort : List ℤ)
    (files : List TableFileMeta) : StatsAcc :=
  files.foldl (get_stats_step index players colored calcmode regtables reghands
    interval buyin buyinsort) ⟨[], [], 0, 0, 0⟩

/-- Survival predicate of the claim statements: the file id resolves in the
index and the resolved table passes every filter. -/
def survives (index : ℤ → Option Table) (interval : PyStr × PyStr) (buyin : Option PyFloat)
    (f : TableFileMeta) : Bool :=
  match index f.id with
  | none => false
  | some t => passes_filters interval buyin t

/-- Well-formedness of a nickname for the index-line format: none of the
three delimiter characters, and no surrounding whitespace. -/
def nickOk (n : PyStr) : Prop := '|' ∉ n ∧ ':' ∉ n ∧ ',' ∉ n ∧ pyStrip n = n

instance (n : PyStr) : Decidable (nickOk n) := by
  unfold nickOk; infer_instance

/-! Concrete fixtures used by the counterexamples and witnesses below. -/

/-- One hand block in the two-seat-section shape the scanner expects: a
header line, the seat listing, a summary marker, the summary seat lines, and
a blank separator unless it is the file's last hand. -/
def exHandBlock (seatLines sumLines : List String) (last : Bool) : List PyStr :=
  [chars "Winamax Poker - Tournament"] ++ seatLines.map chars
    ++ [chars "*** SUMMARY ***"] ++ sumLines.map chars
    ++ (if last then [] else [chars ""])

def exSelf : List PyStr := [chars "hero1", chars "hero2"]

/-- The 3-hand table of claim C5 as stated: hands 0 and 1 seat both tracked
self nicknames plus the opponent Bob, hand 2 seats only self nicknames. -/
def exLinesTwoSelf : List PyStr :=
  exHandBlock ["Seat 1: hero1 (500)", "Seat 2: hero2 (500)", "Seat 3: Bob (500)"]
    ["Seat 1: hero1 (button) won 1", "Seat 2: hero2 (big blind)", "Seat 3: Bob (small blind)"]
    false
  ++ exHandBlock ["Seat 1: hero1 (500)", "Seat 2: hero2 (500)", "Seat 3: Bob (500)"]
    ["Seat 1: hero1 (button) won 1", "Seat 2: hero2 (big blind)", "Seat 3: Bob (small blind)"]
    false
  ++ exHandBlock ["Seat 1: hero1 (700)", "Seat 2: hero2 (800)"]
    ["Seat 1: hero1 (button) won 2", "Seat 2: hero2 (big blind)"] true

/-- The same 3-hand table with exactly one self nickname seated in hands 0
and 1: both of those hands are heads-up against Bob alone. -/
def exLinesOneSelf : List PyStr :=
  exHandBlock ["Seat 1: hero1 (500)", "Seat 3: Bob (500)"]
    ["Seat 1: hero1 (button) won 1", "Seat 3: Bob (small blind)"] false
  ++ exHandBlock ["Seat 1: hero1 (500)", "Seat 3: Bob (500)"]
    ["Seat 1: hero1 (button) won 1", "Seat 3: Bob (small blind)"] false
  ++ exHandBlock ["Seat 1: hero1 (700)", "Seat 2: hero2 (800)"]
    ["Seat 1: hero1 (button) won 2", "Seat 2: hero2 (big blind)"] true

/-- A tournament summary with all three required fields. -/
def exSummaryLines : List PyStr :=
  [chars "Winamax Poker Tournament summary", chars "Buy-In: 5.00€+0.50€",
   chars "Prizepool: 20.00€", chars "Tournament started 2024/03/10 02:30:00 UTC"]

/-- A one-table file system: table id 5, one hand file, one summary file. -/
def exEnv : Env :=
  { dataWalk := [(chars "d", chars "Expresso Nitro(5) real")]
  , tsWalk := [(chars "t", chars "Expresso Nitro(5) limit_summary")]
  , fileLines := fun p =>
      if p = chars "d/Expresso Nitro(5) real" then exLinesOneSelf
      else if p = chars "t/Expresso Nitro(5) limit_summary" then exSummaryLines
      else []
  , selfNicknames := exSelf }

/-- The store `index_run exEnv` produces, byte for byte. -/
def exStoreRun : Store :=
  ⟨chars "5|2024/03/10 02:30:00|20.0|5.5|1|Bob:2:3|Bob:0:other|3\n", chars "Bob|1|2\n"⟩

/-- A table id-7 environment whose hand file holds zero hands. -/
def exEnvZero : Env :=
  { dataWalk := [(chars "d", chars "Expresso Nitro(7) empty")]
  , tsWalk := [(chars "t", chars "Expresso Nitro(7) limit_summary")]
  , fileLines := fun p =>
      if p = chars "t/Expresso Nitro(7) limit_summary" then exSummaryLines
      else []
  , selfNicknames := exSelf }

def exMetaZero : TableFileMeta :=
  ⟨7, chars "t/Expresso Nitro(7) limit_summary", [chars "d/Expresso Nitro(7) empty"]⟩

/-- A summary with no `Prizepool` line. -/
def exSummaryMissing : List PyStr :=
  [chars "Winamax Poker Tournament summary", chars "Buy-In: 5.00€+0.50€",
   chars "Tournament started 2024/03/10 02:30:00 UTC"]

def exEnvC9 : Env :=
  { dataWalk := [(chars "d", chars "Expresso Nitro(9) real")]
  , tsWalk := [(chars "t", chars "Expresso Nitro(9) limit_summary")]
  , fileLines := fun p =>
      if p = chars "t/Expresso Nitro(9) limit_summary" then exSummaryMissing
      else exLinesOneSelf
  , selfNicknames := exSelf }

def exMetaC9 : TableFileMeta :=
  ⟨9, chars "t/Expresso Nitro(9) limit_summary", [chars "d/Expresso Nitro(9) real"]⟩

/-- A player store with one player of 120 tables and 250 hands. -/
def exPlayersMap : PyStr → Option IndexedPlayer := fun n =>
  if n = chars "dave" then some ⟨chars "dave", 120, 250⟩ else none

/-- A color-marker map holding one fish and one reg. -/
def exColoredMap : PyStr → Option PlayerType := fun n =>
  if n = chars "carl" then some PlayerType.FISH
  else if n = chars "rita" then some PlayerType.REG
  else none

def exTableData : TableData := ⟨chars "2024/02/01 00:00:00", ⟨20, 0⟩, ⟨55, 1⟩⟩

/-- A table whose timestamp equals the interval's end bound. -/
def exTableEnd : Table := ⟨5, exTableData, 1, [⟨chars "Bob", 2, 3⟩], NO_XA, 0⟩

/-- A table whose timestamp carries a `|` but whose players and elimination
nickname satisfy all conditions of claim C10. -/
def exTableBadTs : Table :=
  ⟨5, ⟨chars "a|b", ⟨20, 0⟩, ⟨55, 1⟩⟩, 1, [⟨chars "p", 1, 2⟩], NO_XA, 0⟩

/-! Lemmas about the decimal primitives, building up to the round trips
`pyInt? (intChars i) = some i` and `pyFloat? (floatChars v) = some v`. -/

theorem digitsValAux_append (acc : ℕ) (l1 l2 : List Char) :
    digitsValAux acc (l1 ++ l2) = digitsValAux (digitsValAux acc l1) l2 := by
  induction l1 generalizing acc with
  | nil => rfl
  | cons c cs ih => exact ih (acc * 10 + (c.toNat - 48))

theorem digitChar_isDigit {n : ℕ} (h : n < 10) : (Nat.digitChar n).isDigit = true := by
  interval_cases n <;> decide

theorem digitChar_val {n : ℕ} (h : n < 10) : (Nat.digitChar n).toNat - 48 = n := by
  interval_cases n <;> decide

theorem natDigitsAux_ne_nil {fuel n : ℕ} (h : n < fuel) : natDigitsAux fuel n ≠ [] := by
  cases fuel with
  | zero => omega
  | succ f =>
    unfold natDigitsAux
    split
    · simp
    · simp

theorem natDigitsAux_all_digit {fuel n : ℕ} (h : n < fuel) :
    ∀ c ∈ natDigitsAux fuel n, c.isDigit = true := by
  induction fuel generalizing n with
  | zero => omega
  | succ f ih =>
    unfold natDigitsAux
    split
    · next hlt => intro c hc; simp at hc; exact hc ▸ digitChar_isDigit hlt
    · next hge =>
      intro c hc
      rcases List.mem_append.mp hc with hc | hc
      · exact ih (by omega) c hc
      · simp at hc; exact hc ▸ digitChar_isDigit (Nat.mod_lt _ (by omega))

theorem natDigitsAux_val {fuel n : ℕ} (h : n < fuel) :
    digitsValAux 0 (natDigitsAux fuel n) = n := by
  induction fuel generalizing n with
  | zero => omega
  | succ f ih =>
    unfold natDigitsAux
    split
    · next hlt =>
      show 0 * 10 + ((Nat.digitChar n).toNat - 48) = n
      rw [digitChar_val hlt]
      omega
    · next hge =>
      rw [digitsValAux_append, ih (by omega)]
      show (n / 10) * 10 + ((Nat.digitChar (n % 10)).toNat - 48) = n
      rw [digitChar_val (Nat.mod_lt _ (by omega))]
      omega

theorem natDigitsAux_len_le {fuel n k : ℕ} (hf : n < fuel) (h : n < 10 ^ k) (hk : 1 ≤ k) :
    (natDigitsAux fuel n).length ≤ k := by
  induction fuel generalizing n k with
  | zero => omega
  | succ f ih =>
    unfold natDigitsAux
    split
    · next hlt => simpa using hk
    · next hge =>
      cases k with
      | zero => omega
      | succ k' =>
        have hk' : 1 ≤ k' := by
          by_contra hc
          have : k' = 0 := by omega
          subst this
          simp at h
          omega
        have hdiv : n / 10 < 10 ^ k' := by
          rw [Nat.div_lt_iff_lt_mul (by omega)]
          calc n < 10 ^ (k' + 1) := h
          _ = 10 ^ k' * 10 := by ring
        have := ih (by omega) hdiv hk'
        simp only [List.length_append, List.length_cons, List.length_nil]
        omega

theorem natDigits_ne_nil (n : ℕ) : natDigits n ≠ [] := natDigitsAux_ne_nil (by omega)

theorem natDigits_all_digit (n : ℕ) : ∀ c ∈ natDigits n, c.isDigit = true :=
  natDigitsAux_all_digit (by omega)

theorem natDigits_val (n : ℕ) : digitsValAux 0 (natDigits n) = n :=
  natDigitsAux_val (by omega)

theorem natDigits_len_le {n k : ℕ} (h : n < 10 ^ k) (hk : 1 ≤ k) :
    (natDigits n).length ≤ k := natDigitsAux_len_le (by omega) h hk

theorem digitsValAux_replicate_zero (j : ℕ) (l : List Char) :
    digitsValAux 0 (List.replicate j '0' ++ l) = digitsValAux 0 l := by
  induction j with
  | zero => rfl
  | succ j ih =>
    rw [List.replicate_succ, List.cons_append]
    show digitsValAux (0 * 10 + ('0'.toNat - 48)) (List.replicate j '0' ++ l) = digitsValAux 0 l
    have h0 : 0 * 10 + ('0'.toNat - 48) = 0 := by decide
    rw [h0]
    exact ih

theorem isDigit_not_space {c : Char} (h : c.isDigit = true) : pyIsSpace c = false := by
  simp only [pyIsSpace, Bool.or_eq_false_iff, beq_eq_false_iff_ne]
  refine ⟨⟨⟨⟨⟨?_, ?_⟩, ?_⟩, ?_⟩, ?_⟩, ?_⟩ <;> (rintro rfl; exact absurd h (by decide))

theorem dropWhile_of_all_neg {p : α → Bool} {l : List α} (h : ∀ c ∈ l, p c = false) :
    l.dropWhile p = l := by
  cases l with
  | nil => rfl
  | cons c cs => simp [List.dropWhile, h c (by simp)]

theorem pyStrip_no_space {l : PyStr} (h : ∀ c ∈ l, pyIsSpace c = false) : pyStrip l = l := by
  unfold pyStrip
  rw [dropWhile_of_all_neg h, dropWhile_of_all_neg (fun c hc => h c (List.mem_reverse.mp hc)),
    List.reverse_reverse]

theorem takeWhile_all_append {p : α → Bool} {l1 : List α} (l2 : List α)
    (h : ∀ c ∈ l1, p c = true) : (l1 ++ l2).takeWhile p = l1 ++ l2.takeWhile p := by
  induction l1 with
  | nil => rfl
  | cons c cs ih =>
    simp only [List.cons_append, List.takeWhile_cons, h c (by simp)]
    rw [ih (fun d hd => h d (by simp [hd]))]
    simp

theorem dropWhile_all_append {p : α → Bool} {l1 : List α} (l2 : List α)
    (h : ∀ c ∈ l1, p c = true) : (l1 ++ l2).dropWhile p = l2.dropWhile p := by
  induction l1 with
  | nil => rfl
  | cons c cs ih =>
    simp only [List.cons_append, List.dropWhile_cons, h c (by simp)]
    exact ih (fun d hd => h d (by simp [hd]))

theorem canonF_canonical_self {n : ℤ} {e : ℕ} (h : PyFloat.Canonical ⟨n, e⟩) :
    canonF n e = ⟨n, e⟩ := by
  cases e with
  | zero => rfl
  | succ e' =>
    rcases h with h | h
    · simp at h
    · simp only [PyFloat.Canonical] at h
      unfold canonF
      simp only [if_neg h]

theorem canonF_mul10 (n : ℤ) (e : ℕ) : canonF (n * 10) (e + 1) = canonF n e := by
  show (if (n * 10) % 10 = 0 then canonF ((n * 10).tdiv 10) e else ⟨n * 10, e + 1⟩) = canonF n e
  rw [if_pos (Int.mul_emod_left n 10), Int.mul_tdiv_cancel n (by omega)]

theorem pySign_digits {l : PyStr} (hne : l ≠ []) (hd : ∀ c ∈ l, c.isDigit = true) :
    pySign l = (false, l) := by
  cases l with
  | nil => exact absurd rfl hne
  | cons c cs =>
    have hc := hd c (by simp)
    have h1 : c ≠ '-' := by rintro rfl; exact absurd hc (by decide)
    have h2 : c ≠ '+' := by rintro rfl; exact absurd hc (by decide)
    simp [pySign, h1, h2]

theorem pyDigits_of_all {l : PyStr} (hne : l ≠ []) (hd : ∀ c ∈ l, c.isDigit = true) :
    pyDigits? l = some (digitsValAux 0 l) := by
  unfold pyDigits?
  rw [if_neg (by simpa [List.isEmpty_iff] using hne), if_pos (List.all_eq_true.mpr hd)]

theorem intChars_not_space (i : ℤ) : ∀ c ∈ intChars i, pyIsSpace c = false := by
  intro c hc
  unfold intChars at hc
  split at hc
  · rcases List.mem_cons.mp hc with rfl | hc
    · decide
    · exact isDigit_not_space (natDigits_all_digit _ c hc)
  · exact isDigit_not_space (natDigits_all_digit _ c hc)

theorem pyInt_intChars (i : ℤ) : pyInt? (intChars i) = some i := by
  unfold pyInt?
  rw [pyStrip_no_space (intChars_not_space i)]
  by_cases hi : i < 0
  · have hform : intChars i = '-' :: natDigits i.natAbs := by rw [intChars, if_pos hi]
    have hsign : pySign ('-' :: natDigits i.natAbs) = (true, natDigits i.natAbs) := by
      simp [pySign]
    rw [hform]
    simp only [hsign, pyDigits_of_all (natDigits_ne_nil _) (natDigits_all_digit _),
      Option.map_some', natDigits_val, if_pos]
    congr 1
    omega
  · have hform : intChars i = natDigits i.natAbs := by rw [intChars, if_neg hi]
    rw [hform]
    simp only [pySign_digits (natDigits_ne_nil _) (natDigits_all_digit _),
      pyDigits_of_all (natDigits_ne_nil _) (natDigits_all_digit _), Option.map_some',
      natDigits_val, Bool.false_eq_true, if_false]
    congr 1
    omega

theorem pyFloatCore_concat (neg : Bool) (a b : List Char)
    (ha : ∀ c ∈ a, c.isDigit = true) (hb : ∀ c ∈ b, c.isDigit = true) (hbne : b ≠ []) :
    pyFloatCore neg (a ++ '.' :: b)
      = some (canonF (pySgn neg (digitsValAux 0 a * 10 ^ b.length + digitsValAux 0 b))
          b.length) := by
  have htake : (a ++ '.' :: b).takeWhile Char.isDigit = a := by
    rw [takeWhile_all_append _ ha, List.takeWhile_cons]
    simp
  have hdrop : (a ++ '.' :: b).dropWhile Char.isDigit = '.' :: b := by
    rw [dropWhile_all_append _ ha, List.dropWhile_cons]
    simp
  unfold pyFloatCore
  rw [htake, hdrop]
  have hcond : ('.' : Char) = '.' ∧ b.all Char.isDigit = true ∧
      ¬(a.isEmpty = true ∧ b.isEmpty = true) := by
    refine ⟨rfl, List.all_eq_true.mpr hb, ?_⟩
    rintro ⟨-, h2⟩
    exact hbne (List.isEmpty_iff.mp h2)
  simp only [pyFracPart]
  exact if_pos ⟨trivial, hcond.2.1, hcond.2.2⟩

theorem pyFloat_of_parts (m : ℤ) (e : ℕ) (a b : List Char)
    (ha : ∀ c ∈ a, c.isDigit = true) (hb : ∀ c ∈ b, c.isDigit = true)
    (hane : a ≠ []) (hbne : b ≠ [])
    (hval : canonF (pySgn (decide (m < 0)) (digitsValAux 0 a * 10 ^ b.length + digitsValAux 0 b))
      b.length = ⟨m, e⟩) :
    pyFloat? ((if m < 0 then ['-'] else []) ++ a ++ '.' :: b) = some (⟨m, e⟩ : PyFloat) := by
  have hns : ∀ c ∈ (if m < 0 then ['-'] else []) ++ a ++ '.' :: b, pyIsSpace c = false := by
    intro c hc
    rcases List.mem_append.mp hc with hc | hc
    · rcases List.mem_append.mp hc with hc | hc
      · split at hc <;> simp at hc
        rcases hc with rfl
        decide
      · exact isDigit_not_space (ha c hc)
    · rcases List.mem_cons.mp hc with rfl | hc
      · decide
      · exact isDigit_not_space (hb c hc)
  unfold pyFloat?
  rw [pyStrip_no_space hns]
  by_cases hm : m < 0
  · rw [if_pos hm, List.cons_append, List.cons_append, List.nil_append]
    have hsign : pySign ('-' :: (a ++ '.' :: b)) = (true, a ++ '.' :: b) := by
      simp [pySign]
    simp only [hsign]
    rw [pyFloatCore_concat true a b ha hb hbne]
    rw [decide_eq_true hm] at hval
    rw [hval]
  · rw [if_neg hm, List.nil_append]
    obtain ⟨d, ds, hds⟩ := List.exists_cons_of_ne_nil hane
    have hd : d.isDigit = true := ha d (by rw [hds]; simp)
    have h1 : d ≠ '-' := by rintro rfl; exact absurd hd (by decide)
    have h2 : d ≠ '+' := by rintro rfl; exact absurd hd (by decide)
    have hsign : pySign (a ++ '.' :: b) = (false, a ++ '.' :: b) := by
      rw [hds, List.cons_append]
      simp [pySign, h1, h2]
    simp only [hsign]
    rw [pyFloatCore_concat false a b ha hb hbne]
    rw [decide_eq_false hm] at hval
    rw [hval]

theorem pyFloat_floatChars (v : PyFloat) (hv : v.Canonical) :
    pyFloat? (floatChars v) = some v := by
  obtain ⟨m, e⟩ := v
  set n := m.natAbs with hn
  have hsgn : ∀ k : ℕ, pySgn (decide (m < 0)) k = if m < 0 then -(k : ℤ) else (k : ℤ) := by
    intro k
    by_cases hm : m < 0 <;> simp [pySgn, hm]
  by_cases he : e = 0
  · subst he
    have hbody : floatChars ⟨m, 0⟩
        = (if m < 0 then ['-'] else []) ++ natDigits n ++ '.' :: ['0'] := by
      unfold floatChars
      have hdot : chars ".0" = ['.', '0'] := rfl
      by_cases hm : m < 0 <;> simp [hm, hdot]
    rw [hbody]
    refine pyFloat_of_parts m 0 (natDigits n) ['0'] (natDigits_all_digit n)
      (by intro c hc; simp at hc; rcases hc with rfl; decide) (natDigits_ne_nil n) (by simp) ?_
    rw [hsgn]
    have hval : digitsValAux 0 (natDigits n) * 10 ^ ([('0' : Char)].length)
        + digitsValAux 0 ['0'] = n * 10 := by
      rw [natDigits_val]
      have h0 : digitsValAux 0 ['0'] = 0 := by decide
      rw [h0]
      simp
    rw [hval]
    by_cases hm : m < 0
    · rw [if_pos hm]
      have hcast : -((n * 10 : ℕ) : ℤ) = (-(n : ℤ)) * 10 := by push_cast; ring
      rw [show ([('0' : Char)].length) = 1 from rfl, hcast, canonF_mul10]
      show PyFloat.mk (-(n : ℤ)) 0 = PyFloat.mk m 0
      have : -(n : ℤ) = m := by omega
      rw [this]
    · rw [if_neg hm]
      have hcast : ((n * 10 : ℕ) : ℤ) = ((n : ℤ)) * 10 := by push_cast; ring
      rw [show ([('0' : Char)].length) = 1 from rfl, hcast, canonF_mul10]
      show PyFloat.mk ((n : ℤ)) 0 = PyFloat.mk m 0
      have : (n : ℤ) = m := by omega
      rw [this]
  · obtain ⟨e', rfl⟩ : ∃ e', e = e' + 1 := ⟨e - 1, by omega⟩
    have hm10 : m % 10 ≠ 0 := by
      rcases hv with hv | hv
      · simp at hv
      · exact hv
    have hmodlt : n % 10 ^ (e' + 1) < 10 ^ (e' + 1) := Nat.mod_lt _ (by positivity)
    have hflen : (padZeros (natDigits (n % 10 ^ (e' + 1))) (e' + 1)).length = e' + 1 := by
      unfold padZeros
      have := natDigits_len_le hmodlt (by omega)
      simp only [List.length_append, List.length_replicate]
      omega
    have hfdig : ∀ c ∈ padZeros (natDigits (n % 10 ^ (e' + 1))) (e' + 1), c.isDigit = true := by
      intro c hc
      unfold padZeros at hc
      rcases List.mem_append.mp hc with hc | hc
      · rw [List.eq_of_mem_replicate hc]
        decide
      · exact natDigits_all_digit _ c hc
    have hfne : padZeros (natDigits (n % 10 ^ (e' + 1))) (e' + 1) ≠ [] := by
      intro hcon
      have := hflen
      rw [hcon] at this
      simp at this
    have hbody : floatChars ⟨m, e' + 1⟩
        = (if m < 0 then ['-'] else []) ++ natDigits (n / 10 ^ (e' + 1))
          ++ '.' :: padZeros (natDigits (n % 10 ^ (e' + 1))) (e' + 1) := by
      unfold floatChars
      by_cases hm : m < 0 <;> simp [hm, he]
    rw [hbody]
    refine pyFloat_of_parts m (e' + 1) _ _ (natDigits_all_digit _) hfdig
      (natDigits_ne_nil _) hfne ?_
    have hval : digitsValAux 0 (natDigits (n / 10 ^ (e' + 1)))
        * 10 ^ (padZeros (natDigits (n % 10 ^ (e' + 1))) (e' + 1)).length
        + digitsValAux 0 (padZeros (natDigits (n % 10 ^ (e' + 1))) (e' + 1)) = n := by
      have hfval : digitsValAux 0 (padZeros (natDigits (n % 10 ^ (e' + 1))) (e' + 1))
          = n % 10 ^ (e' + 1) := by
        unfold padZeros
        rw [digitsValAux_replicate_zero, natDigits_val]
      rw [natDigits_val, hfval, hflen, Nat.mul_comm]
      exact Nat.div_add_mod n (10 ^ (e' + 1))
    rw [hsgn, hval, hflen]
    by_cases hm : m < 0
    · rw [if_pos hm]
      have : -(n : ℤ) = m := by omega
      rw [this, canonF_canonical_self (Or.inr hm10)]
    · rw [if_neg hm]
      have : (n : ℤ) = m := by omega
      rw [this, canonF_canonical_self (Or.inr hm10)]

/-! Lemmas about splitting joined fields, leading to the index-line and
player-line round trips. -/

theorem pySplitC_ne_nil (sep : Char) (l : PyStr) : pySplitC sep l ≠ [] := by
  cases l with
  | nil => simp [pySplitC]
  | cons c cs =>
    show (match pySplitC sep cs with
      | [] => [[]]
      | r :: rs => if c = sep then [] :: r :: rs else (c :: r) :: rs) ≠ []
    cases pySplitC sep cs with
    | nil => simp
    | cons r rs => by_cases hc : c = sep <;> simp [hc]

theorem pySplitC_not_mem {sep : Char} {l : PyStr} (h : sep ∉ l) : pySplitC sep l = [l] := by
  induction l with
  | nil => rfl
  | cons c cs ih =>
    have hc : c ≠ sep := by rintro rfl; exact h (by simp)
    have ih' : pySplitC sep cs = [cs] := ih (fun hm => h (by simp [hm]))
    show (match pySplitC sep cs with
      | [] => [[]]
      | r :: rs => if c = sep then [] :: r :: rs else (c :: r) :: rs) = [c :: cs]
    rw [ih']
    simp [hc]

theorem pySplitC_append_sep (sep : Char) (a b : PyStr) (ha : sep ∉ a) :
    pySplitC sep (a ++ sep :: b) = a :: pySplitC sep b := by
  induction a with
  | nil =>
    show (match pySplitC sep b with
      | [] => [[]]
      | r :: rs => if sep = sep then [] :: r :: rs else (sep :: r) :: rs) = [] :: pySplitC sep b
    cases hb : pySplitC sep b with
    | nil => exact absurd hb (pySplitC_ne_nil sep b)
    | cons r rs => simp
  | cons c cs ih =>
    have hc : c ≠ sep := by rintro rfl; exact ha (by simp)
    have ih' := ih (fun hm => ha (by simp [hm]))
    show (match pySplitC sep (cs ++ sep :: b) with
      | [] => [[]]
      | r :: rs => if c = sep then [] :: r :: rs else (c :: r) :: rs)
      = (c :: cs) :: pySplitC sep b
    rw [ih']
    simp [hc]

theorem pySplitC_joinSep (sep : Char) :
    ∀ parts : List PyStr, parts ≠ [] → (∀ x ∈ parts, sep ∉ x) →
      pySplitC sep (pyJoinSep [sep] parts) = parts
  | [], h, _ => absurd rfl h
  | [x], _, h => by
    unfold pyJoinSep
    exact pySplitC_not_mem (h x (by simp))
  | x :: y :: rest, _, h => by
    unfold pyJoinSep
    have hshape : x ++ [sep] ++ pyJoinSep [sep] (y :: rest)
        = x ++ sep :: pyJoinSep [sep] (y :: rest) := by simp
    rw [hshape, pySplitC_append_sep sep _ _ (h x (by simp)),
      pySplitC_joinSep sep (y :: rest) (by simp) (fun z hz => h z (by simp [hz]))]

theorem mem_pyJoinSep {c : Char} {sep : PyStr} :
    ∀ {parts : List PyStr}, c ∈ pyJoinSep sep parts → c ∈ sep ∨ ∃ x ∈ parts, c ∈ x
  | [], h => by simp [pyJoinSep] at h
  | [x], h => by
    unfold pyJoinSep at h
    exact Or.inr ⟨x, by simp, h⟩
  | x :: y :: rest, h => by
    unfold pyJoinSep at h
    rcases List.mem_append.mp h with h | h
    · rcases List.mem_append.mp h with h | h
      · exact Or.inr ⟨x, by simp, h⟩
      · exact Or.inl h
    · rcases mem_pyJoinSep h with h | ⟨z, hz, hc⟩
      · exact Or.inl h
      · exact Or.inr ⟨z, by simp at hz ⊢; tauto, hc⟩

theorem intChars_mem {c : Char} {i : ℤ} (h : c ∈ intChars i) : c.isDigit = true ∨ c = '-' := by
  unfold intChars at h
  split at h
  · rcases List.mem_cons.mp h with rfl | h
    · exact Or.inr rfl
    · exact Or.inl (natDigits_all_digit _ c h)
  · exact Or.inl (natDigits_all_digit _ c h)

theorem not_mem_intChars {c : Char} {i : ℤ} (h1 : c.isDigit = false) (h2 : c ≠ '-') :
    c ∉ intChars i := by
  intro hm
  rcases intChars_mem hm with h | h
  · rw [h1] at h; exact absurd h (by simp)
  · exact h2 h

theorem floatChars_mem {c : Char} {v : PyFloat} (h : c ∈ floatChars v) :
    c.isDigit = true ∨ c = '-' ∨ c = '.' := by
  unfold floatChars at h
  have hdot : chars ".0" = ['.', '0'] := rfl
  have hbody : ∀ {b : PyStr},
      (∀ d ∈ b, d.isDigit = true ∨ d = '-' ∨ d = '.') →
      c ∈ (if v.num < 0 then '-' :: b else b) → c.isDigit = true ∨ c = '-' ∨ c = '.' := by
    intro b hb hc
    split at hc
    · rcases List.mem_cons.mp hc with rfl | hc
      · exact Or.inr (Or.inl rfl)
      · exact hb c hc
    · exact hb c hc
  refine hbody ?_ h
  intro d hd
  split at hd
  · rw [hdot] at hd
    rcases List.mem_append.mp hd with hd | hd
    · exact Or.inl (natDigits_all_digit _ d hd)
    · simp at hd
      rcases hd with rfl | rfl
      · exact Or.inr (Or.inr rfl)
      · exact Or.inl (by decide)
  · rcases List.mem_append.mp hd with hd | hd
    · exact Or.inl (natDigits_all_digit _ d hd)
    · rcases List.mem_cons.mp hd with rfl | hd
      · exact Or.inr (Or.inr rfl)
      · unfold padZeros at hd
        rcases List.mem_append.mp hd with hd | hd
        · rw [List.eq_of_mem_replicate hd]
          exact Or.inl (by decide)
        · exact Or.inl (natDigits_all_digit _ d hd)

theorem not_mem_floatChars {c : Char} {v : PyFloat} (h1 : c.isDigit = false) (h2 : c ≠ '-')
    (h3 : c ≠ '.') : c ∉ floatChars v := by
  intro hm
  rcases floatChars_mem hm with h | h | h
  · rw [h1] at h; exact absurd h (by simp)
  · exact h2 h
  · exact h3 h

theorem floatChars_not_space {v : PyFloat} : ∀ c ∈ floatChars v, pyIsSpace c = false := by
  intro c hc
  rcases floatChars_mem hc with h | rfl | rfl
  · exact isDigit_not_space h
  · decide
  · decide

theorem eliminated_val_inv (e : EliminatedType) : eliminatedTypeOf? e.val = some e := by
  cases e <;> decide

theorem eliminated_val_no_delim (e : EliminatedType) :
    '|' ∉ e.val ∧ ':' ∉ e.val ∧ ',' ∉ e.val := by
  cases e <;> decide

theorem deserialize_player_roundtrip (p : Player) (h : nickOk p.nickname) :
    deserialize_player (serialize_player_field p) = .ok p := by
  obtain ⟨nick, hands, seat⟩ := p
  obtain ⟨-, h2, -, h4⟩ := h
  unfold serialize_player_field deserialize_player
  rw [pySplitC_joinSep ':' [nick, intChars hands, intChars seat] (by simp) ?_]
  · simp only [pyInt_intChars, h4]
    rfl
  · intro x hx
    simp at hx
    rcases hx with rfl | rfl | rfl
    · exact h2
    · exact not_mem_intChars (by decide) (by decide)
    · exact not_mem_intChars (by decide) (by decide)

theorem mapM_deserialize_players :
    ∀ ps : List Player, (∀ p ∈ ps, nickOk p.nickname) →
      (ps.map serialize_player_field).mapM deserialize_player = .ok ps
  | [], _ => rfl
  | p :: rest, h => by
    simp only [List.map_cons, List.mapM_cons,
      deserialize_player_roundtrip p (h p (by simp)),
      mapM_deserialize_players rest (fun q hq => h q (by simp [hq]))]
    rfl

/-! The Boolean lexicographic comparison agrees with the mathematical
lexicographic order on character lists. -/

theorem charListLe_iff : ∀ a b : PyStr, charListLe a b = true ↔ (List.Lex (· < ·) a b ∨ a = b)
  | [], [] => by
    constructor
    · intro _; exact Or.inr rfl
    · intro _; rfl
  | [], _ :: _ => by
    constructor
    · intro _; exact Or.inl List.Lex.nil
    · intro _; rfl
  | a :: as, [] => by
    constructor
    · intro h; exact absurd h (by simp [charListLe])
    · rintro (h | h)
      · cases h
      · exact absurd h (by simp)
  | a :: as, b :: bs => by
    by_cases hab : a = b
    · subst hab
      have ih := charListLe_iff as bs
      constructor
      · intro h
        have h' : charListLe as bs = true := by simpa [charListLe] using h
        rcases ih.mp h' with h'' | rfl
        · exact Or.inl (List.Lex.cons h'')
        · exact Or.inr rfl
      · rintro (h | h)
        · cases h with
          | cons h'' => simpa [charListLe] using ih.mpr (Or.inl h'')
          | rel h'' => exact absurd h'' (lt_irrefl a)
        · injection h with h1 h2
          simpa [charListLe] using ih.mpr (Or.inr h2)
    · constructor
      · intro h
        have h' : a < b := by simpa [charListLe, hab] using h
        exact Or.inl (List.Lex.rel h')
      · rintro (h | h)
        · cases h with
          | cons h' => exact absurd rfl hab
          | rel h' => simpa [charListLe, hab] using h'
        · injection h with h1 h2
          exact absurd h1 hab

/-! Counting lemmas for the statistics buckets. -/

theorem get_stats_fold_length (index : ℤ → Option Table)
    (players : PyStr → Option IndexedPlayer) (colored : PyStr → Option PlayerType)
    (calcmode : CalcMode) (rt rh : ℤ) (interval : PyStr × PyStr) (buyin : Option PyFloat)
    (buyinsort : List ℤ) :
    ∀ (files : List TableFileMeta) (acc : StatsAcc),
      ((files.foldl
        (get_stats_step index players colored calcmode rt rh interval buyin buyinsort)
        acc).table_stats).length
        = acc.table_stats.length + (files.filter (survives index interval buyin)).length
  | [], acc => by simp
  | f :: fs, acc => by
    rw [List.foldl_cons,
      get_stats_fold_length index players colored calcmode rt rh interval buyin buyinsort fs _]
    have hstep : (get_stats_step index players colored calcmode rt rh interval buyin buyinsort
        acc f).table_stats.length
        = acc.table_stats.length + (if survives index interval buyin f then 1 else 0) := by
      unfold get_stats_step survives
      cases index f.id with
      | none => simp
      | some t =>
        by_cases hpass : passes_filters interval buyin t
        · simp [hpass]
        · simp [hpass]
    rw [hstep]
    by_cases hs : survives index interval buyin f
    · simp [List.filter_cons, hs]
      omega
    · simp [List.filter_cons, hs]

/-! Characterization of the summary scan for C9. -/

theorem except_bind_error {ε α β : Type} (e : ε) (f : α → Except ε β) :
    ((Except.error e : Except ε α) >>= f) = Except.error e := rfl

theorem except_bind_ok {ε α β : Type} (a : α) (f : α → Except ε β) :
    ((Except.ok a : Except ε α) >>= f) = f a := rfl

theorem pyStarts_head_ne {c d : Char} {p q l : PyStr} (h : pyStarts (c :: p) l = true)
    (hne : d ≠ c) : pyStarts (d :: q) l = false := by
  cases l with
  | nil => simp [pyStarts, List.isPrefixOf] at h
  | cons x xs =>
    simp only [pyStarts, List.isPrefixOf, Bool.and_eq_true, beq_iff_eq] at h
    simp only [pyStarts, List.isPrefixOf, Bool.and_eq_false_iff, beq_eq_false_iff_ne]
    exact Or.inl (h.1 ▸ hne)

theorem get_table_data_step_fields (acc : TDAcc) (l : PyStr) (a1 : TDAcc)
    (h : get_table_data_step acc l = .ok a1) :
    (a1.buy_in = none ↔ acc.buy_in = none ∧ pyStarts (chars "Buy-In") l = false) ∧
    (a1.prize_pool = none ↔ acc.prize_pool = none ∧ pyStarts (chars "Prizepool") l = false) ∧
    (a1.timestamp = none ↔ acc.timestamp = none ∧ pyStarts (chars "Tournament started") l = false)
    := by
  have hb : chars "Buy-In" = 'B' :: chars "uy-In" := rfl
  have hpz : chars "Prizepool" = 'P' :: chars "rizepool" := rfl
  have hts : chars "Tournament started" = 'T' :: chars "ournament started" := rfl
  unfold get_table_data_step at h
  split_ifs at h with h1 h2 h3 h4
  · cases hp : parse_buy_in l with
    | none => rw [hp] at h; exact absurd h (by simp)
    | some b =>
      rw [hp] at h
      injection h with h'
      subst h'
      refine ⟨by simp [h1], ?_, ?_⟩
      · have : pyStarts (chars "Prizepool") l = false := by
          rw [hpz]; exact pyStarts_head_ne (hb ▸ h1) (by decide)
        simp [this]
      · have : pyStarts (chars "Tournament started") l = false := by
          rw [hts]; exact pyStarts_head_ne (hb ▸ h1) (by decide)
        simp [this]
  · cases hp : parse_prize_pool l with
    | none => rw [hp] at h; exact absurd h (by simp)
    | some b =>
      rw [hp] at h
      injection h with h'
      subst h'
      refine ⟨?_, by simp [h2], ?_⟩
      · have : pyStarts (chars "Buy-In") l = false := by
          rw [hb]; exact pyStarts_head_ne (hpz ▸ h2) (by decide)
        simp [this]
      · have : pyStarts (chars "Tournament started") l = false := by
          rw [hts]; exact pyStarts_head_ne (hpz ▸ h2) (by decide)
        simp [this]
  · cases hp : parse_tournament_started l with
    | none => rw [hp] at h; exact absurd h (by simp)
    | some b =>
      rw [hp] at h
      injection h with h'
      subst h'
      refine ⟨?_, ?_, by simp [h3]⟩
      · have : pyStarts (chars "Buy-In") l = false := by
          rw [hb]; exact pyStarts_head_ne (hts ▸ h3) (by decide)
        simp [this]
      · have : pyStarts (chars "Prizepool") l = false := by
          rw [hpz]; exact pyStarts_head_ne (hts ▸ h3) (by decide)
        simp [this]
  · injection h with h'
    subst h'
    simp only [Bool.not_eq_true] at h1 h2 h3
    simp [h1, h2, h3]
  · injection h with h'
    subst h'
    simp only [Bool.not_eq_true] at h1 h2 h3
    simp [h1, h2, h3]

theorem tdacc_fold_fields :
    ∀ (lines : List PyStr) (acc acc' : TDAcc),
      lines.foldlM get_table_data_step acc = .ok acc' →
      ((acc'.buy_in = none ↔
          acc.buy_in = none ∧ ∀ l ∈ lines, pyStarts (chars "Buy-In") l = false) ∧
       (acc'.prize_pool = none ↔
          acc.prize_pool = none ∧ ∀ l ∈ lines, pyStarts (chars "Prizepool") l = false) ∧
       (acc'.timestamp = none ↔
          acc.timestamp = none ∧ ∀ l ∈ lines, pyStarts (chars "Tournament started") l = false))
  | [], acc, acc', h => by
    have h' : (Except.ok acc : Except Err TDAcc) = .ok acc' := h
    injection h' with h''
    subst h''
    simp
  | l :: ls, acc, acc', h => by
    rw [List.foldlM_cons] at h
    cases hstep : get_table_data_step acc l with
    | error e =>
      rw [hstep, except_bind_error] at h
      exact absurd h (by simp)
    | ok a1 =>
      rw [hstep, except_bind_ok] at h
      have h' : ls.foldlM get_table_data_step a1 = .ok acc' := h
      have hrec := tdacc_fold_fields ls a1 acc' h'
      have hone := get_table_data_step_fields acc l a1 hstep
      refine ⟨?_, ?_, ?_⟩
      · rw [hrec.1, hone.1]
        simp only [List.mem_cons]
        constructor
        · rintro ⟨⟨ha, hl⟩, hls⟩
          exact ⟨ha, fun x hx => by rcases hx with rfl | hx; exact hl; exact hls x hx⟩
        · rintro ⟨ha, hall⟩
          exact ⟨⟨ha, hall l (Or.inl rfl)⟩, fun x hx => hall x (Or.inr hx)⟩
      · rw [hrec.2.1, hone.2.1]
        simp only [List.mem_cons]
        constructor
        · rintro ⟨⟨ha, hl⟩, hls⟩
          exact ⟨ha, fun x hx => by rcases hx with rfl | hx; exact hl; exact hls x hx⟩
        · rintro ⟨ha, hall⟩
          exact ⟨⟨ha, hall l (Or.inl rfl)⟩, fun x hx => hall x (Or.inr hx)⟩
      · rw [hrec.2.2, hone.2.2]
        simp only [List.mem_cons]
        constructor
        · rintro ⟨⟨ha, hl⟩, hls⟩
          exact ⟨ha, fun x hx => by rcases hx with rfl | hx; exact hl; exact hls x hx⟩
        · rintro ⟨ha, hall⟩
          exact ⟨⟨ha, hall l (Or.inl rfl)⟩, fun x hx => hall x (Or.inr hx)⟩

/-! The elimination event, once recorded, survives the rest of the scan. -/

theorem xaCheck_some (selfN : List PyStr) (x : XA) (xaNicks prevHand : List PyStr)
    (handCount : ℕ) : xaCheck selfN (some x) xaNicks prevHand handCount = some x := by
  unfold xaCheck
  rw [if_neg]
  rintro ⟨h, -⟩
  exact absurd h (by simp)

theorem scanHands_xa_preserved (selfN : List PyStr) :
    ∀ (fuel : ℕ) (lines : List PyStr) (st : ScanSt) (x : XA) (st' : ScanSt),
      st.xa = some x → scanHands selfN fuel lines st = .ok st' → st'.xa = some x
  | 0, lines, st, x, st', hx, h => absurd h (by simp [scanHands])
  | _ + 1, [], st, x, st', hx, h => by
    have h' : (Except.ok st : Except Err ScanSt) = .ok st' := h
    injection h' with h''
    subst h''
    exact hx
  | fuel + 1, l :: ls, st, x, st', hx, h => by
    simp only [scanHands] at h
    cases hps : processSeatLines selfN
        (List.takeWhile startsSeat
          (List.dropWhile (fun s => !startsSeat s) (List.dropWhile isBlankLine (l :: ls))))
        (st.seats, st.counter, []) with
    | error e =>
      rw [hps, except_bind_error] at h
      exact absurd h (by simp)
    | ok trip =>
      rw [hps, except_bind_ok] at h
      rw [hx, xaCheck_some] at h
      exact scanHands_xa_preserved selfN fuel _ _ x st' rfl h

theorem all_false_iff_not_exists (p : PyStr → Bool) (lines : List PyStr) :
    (∀ l ∈ lines, p l = false) ↔ ¬ ∃ l ∈ lines, p l = true := by
  constructor
  · rintro h ⟨l, hl, hp⟩
    rw [h l hl] at hp
    exact absurd hp (by simp)
  · intro h l hl
    by_contra hc
    exact h ⟨l, hl, by simpa using hc⟩

/-! Claim theorems. -/

/-- Claim C1, counterexample.  The program has no checkpoint: after a first
run over `exEnv` the only table id folded into the index is 5, so the
claimed checkpoint is 5; yet the file-selection procedure of the next run —
`get_files_to_index`, which takes no checkpoint input at all — returns the
id-5 files again (and `¬ (5 > 5)`), so a file with id not exceeding the
checkpoint is considered and re-parsed, against the claim.  The third
conjunct shows the run's output ignores the previously persisted store
(both files are opened with mode `"w"` and rewritten whole, not appended). -/
theorem c1_counterexample :
    index_run exEnv ⟨[], []⟩ = .ok exStoreRun ∧
    get_files_to_index exEnv = .ok [⟨5, chars "t/Expresso Nitro(5) limit_summary",
      [chars "d/Expresso Nitro(5) real"]⟩] ∧
    index_run exEnv exStoreRun = index_run exEnv ⟨[], []⟩ ∧
    ¬ ((5 : ℤ) > 5) :=
  ⟨by decide, by decide, rfl, by decide⟩

/-- Claim C1 (amended): there is no checkpoint and the index and player
files are fully rewritten on every run; an indexing run's outputs depend
only on the walked files, never on the previously persisted store, and
re-running immediately with no new files reproduces the store byte for
byte. -/
theorem c1_index_run_stateless (env : Env) (s s' : Store) :
    index_run env s = index_run env s' ∧
    (∀ s₁ : Store, index_run env s = .ok s₁ → index_run env s₁ = .ok s₁) :=
  ⟨rfl, fun _ h => h⟩

theorem c1_witness : index_run exEnv exStoreRun = .ok exStoreRun :=
  (c1_index_run_stateless exEnv ⟨[], []⟩ exStoreRun).2 exStoreRun (by decide)

/-- Claim C2, counterexample.  A table with zero recognized hands does not
yield an empty player list with the sentinel: the self-seat lookup
`seats[next(iter(self_nicknames.intersection(seats)))]` raises
`StopIteration` on the empty seats dictionary, and the index run fails
instead of indexing the table. -/
theorem c2_counterexample :
    get_data exSelf [] = .error Err.stopIteration ∧
    get_tables exEnvZero [exMetaZero] = .error Err.stopIteration :=
  ⟨by decide, by decide⟩

/-- Claim C2 (amended): on a zero-hand input the scan itself accumulates an
empty player counter and no elimination event (first conjunct), but
`__get_data__` then raises `StopIteration` at the self-seat lookup, and
`__get_tables__` propagates the exception, so the table is not indexed and
the run fails. -/
theorem c2_zero_hands_raises :
    scanHands exSelf 1 [] ⟨none, [], [], 0, []⟩ = .ok ⟨none, [], [], 0, []⟩ ∧
    get_data exSelf [] = .error Err.stopIteration ∧
    get_tables exEnvZero [exMetaZero] = .error Err.stopIteration :=
  ⟨by decide, by decide, by decide⟩

/-- Claim C3: the classifier's precedence.  A `Fish` marker forces false and
a `Reg` marker forces true regardless of counts; with no marker, a nickname
absent from the player store is classified fish, and a present nickname is
compared against the table threshold in tables mode and the hand threshold
in hands mode. -/
theorem c3_is_reg_spec (players : PyStr → Option IndexedPlayer)
    (colored : PyStr → Option PlayerType) (n : PyStr) (mode : CalcMode) (rt rh : ℤ) :
    (colored n = some PlayerType.FISH → is_reg players colored n mode rt rh = false) ∧
    (colored n = some PlayerType.REG → is_reg players colored n mode rt rh = true) ∧
    (colored n = none → players n = none → is_reg players colored n mode rt rh = false) ∧
    (∀ p : IndexedPlayer, colored n = none → players n = some p →
      (is_reg players colored n CalcMode.TABLES rt rh = true ↔ p.tables ≥ rt) ∧
      (is_reg players colored n CalcMode.HANDS rt rh = true ↔ p.hands ≥ rh)) := by
  unfold is_reg
  refine ⟨?_, ?_, ?_, ?_⟩
  · intro h; rw [h]; simp
  · intro h; rw [h]; simp
  · intro h1 h2; rw [h1, h2]
  · intro p h1 h2
    rw [h1, h2]
    exact ⟨by simp, by simp⟩

theorem c3_witness :
    is_reg exPlayersMap exColoredMap (chars "carl") CalcMode.TABLES 0 0 = false ∧
    is_reg exPlayersMap exColoredMap (chars "rita") CalcMode.HANDS 9999 9999 = true ∧
    is_reg exPlayersMap exColoredMap (chars "alice") CalcMode.TABLES 100 300 = false ∧
    is_reg exPlayersMap exColoredMap (chars "dave") CalcMode.TABLES 100 300 = true :=
  ⟨(c3_is_reg_spec exPlayersMap exColoredMap (chars "carl") CalcMode.TABLES 0 0).1 (by decide),
   (c3_is_reg_spec exPlayersMap exColoredMap (chars "rita") CalcMode.HANDS 9999 9999).2.1
     (by decide),
   (c3_is_reg_spec exPlayersMap exColoredMap (chars "alice") CalcMode.TABLES 100 300).2.2.1
     (by decide) (by decide),
   ((c3_is_reg_spec exPlayersMap exColoredMap (chars "dave") CalcMode.TABLES 100 300).2.2.2
     ⟨chars "dave", 120, 250⟩ (by decide) (by decide)).1.mpr (by decide)⟩

/-- Claim C4, counterexample.  The summary line `Buy-In: $5.00+$0.50` does
not parse to 5.50: `parse_price` strips whitespace and exactly one trailing
character, leaving `$5.0`, and `float` rejects the leading `$`, so
`parse_buy_in` raises (modelled by `none`) instead of tolerating a leading
currency symbol. -/
theorem c4_counterexample :
    parse_buy_in (chars "Buy-In: $5.00+$0.50") = none ∧
    (none : Option PyFloat) ≠ some ⟨55, 1⟩ :=
  ⟨by decide, by decide⟩

/-- Claim C4 (amended): `parse_price` strips surrounding whitespace and then
exactly one trailing symbol character; the currency symbol must trail, not
lead.  Any float value printed with one trailing symbol character round
trips, and the summary line `Buy-In: 5.00€+0.50€` parses to 5.50 by
splitting on `+`, stripping each token's trailing symbol, parsing as float
and summing. -/
theorem c4_parse_price_spec :
    (∀ v : PyFloat, v.Canonical → parse_price (floatChars v ++ ['€']) = some v) ∧
    parse_buy_in (chars "Buy-In: 5.00€+0.50€") = some ⟨55, 1⟩ := by
  refine ⟨fun v hv => ?_, by decide⟩
  unfold parse_price
  have hns : ∀ c ∈ floatChars v ++ ['€'], pyIsSpace c = false := by
    intro c hc
    rcases List.mem_append.mp hc with hc | hc
    · exact floatChars_not_space c hc
    · simp at hc
      subst hc
      decide
  rw [pyStrip_no_space hns, List.dropLast_concat]
  exact pyFloat_floatChars v hv

theorem c4_witness : parse_price (floatChars ⟨55, 1⟩ ++ ['€']) = some ⟨55, 1⟩ :=
  c4_parse_price_spec.1 ⟨55, 1⟩ (by decide)

/-- Claim C5, counterexample.  In the claim's 3-hand scenario the hands with
two self nicknames and Bob have a self-intersection of size two, so the
detection condition `len(xa_inter) == 1 and len(xa_nicknames) == 2` never
fires and the table's elimination event is the sentinel `NO_XA`, not
`("Bob", afterHand 0)`. -/
theorem c5_counterexample :
    get_data exSelf exLinesTwoSelf = .ok (1, [⟨chars "Bob", 2, 3⟩], NO_XA, 3) ∧
    NO_XA.nickname ≠ chars "Bob" :=
  ⟨by decide, by decide⟩

/-- Claim C5 (amended): the elimination event fires for a hand whose
nickname set holds exactly one self nickname and exactly one opponent, is
recorded once per table and never overwritten (first conjunct); in a 3-hand
table whose hands 0 and 1 seat one self nickname plus Bob and whose hand 2
seats only self nicknames, it resolves to `("Bob", afterHand 0)` — the
first qualifying hand wins over hand 1. -/
theorem c5_first_match :
    (∀ (selfN : List PyStr) (fuel : ℕ) (lines : List PyStr) (st : ScanSt) (x : XA)
      (st' : ScanSt), st.xa = some x → scanHands selfN fuel lines st = .ok st' →
        st'.xa = some x) ∧
    get_data exSelf exLinesOneSelf
      = .ok (1, [⟨chars "Bob", 2, 3⟩], ⟨chars "Bob", 0, EliminatedType.OTHER⟩, 3) :=
  ⟨scanHands_xa_preserved, by decide⟩

theorem c5_witness :
    ScanSt.xa ⟨some ⟨chars "Bob", 0, EliminatedType.OTHER⟩, [], [], 1, []⟩
      = some ⟨chars "Bob", 0, EliminatedType.OTHER⟩ :=
  c5_first_match.1 exSelf 2 [chars "x"]
    ⟨some ⟨chars "Bob", 0, EliminatedType.OTHER⟩, [], [], 0, []⟩
    ⟨chars "Bob", 0, EliminatedType.OTHER⟩
    ⟨some ⟨chars "Bob", 0, EliminatedType.OTHER⟩, [], [], 1, []⟩ rfl (by decide)

/-- Claim C6, counterexample.  The interval filter keeps a table whose
timestamp equals the interval's end: the source compares with
`interval[0] <= timestamp <= interval[1]`, a closed interval, so the table
is not filtered out as the half-open claim requires. -/
theorem c6_counterexample :
    interval_filter (chars "2024/01/01 00:00:00", chars "2024/02/01 00:00:00") exTableEnd = true
    ∧ exTableEnd.table_data.timestamp = chars "2024/02/01 00:00:00" :=
  ⟨by decide, by decide⟩

/-- Claim C6 (amended): the interval filter keeps exactly the tables whose
timestamp lies lexicographically within the closed interval `[start, end]`
— both bounds inclusive, a timestamp equal to `end` survives. -/
theorem c6_interval_filter_closed (interval : PyStr × PyStr) (t : Table) :
    interval_filter interval t = true ↔
      ((List.Lex (· < ·) interval.1 t.table_data.timestamp
          ∨ interval.1 = t.table_data.timestamp) ∧
       (List.Lex (· < ·) t.table_data.timestamp interval.2
          ∨ t.table_data.timestamp = interval.2)) := by
  unfold interval_filter
  rw [Bool.and_eq_true, charListLe_iff, charListLe_iff]

/-- Claim C7, counterexample.  A serialized player line has three
pipe-delimited fields `nickname|tables|hands` and no fourth colorStatus
field: its split has length 3 and its last field is the hand count, not one
of `Reg`, `Fish`, `Unknown` (the `IndexedPlayer` record carries no
colorStatus at all). -/
theorem c7_counterexample :
    pySplitC '|' (serialize_indexed_player ⟨chars "alice", 3, 7⟩)
      = [chars "alice", chars "3", chars "7"] ∧
    (pySplitC '|' (serialize_indexed_player ⟨chars "alice", 3, 7⟩)).length ≠ 4 ∧
    (pySplitC '|' (serialize_indexed_player ⟨chars "alice", 3, 7⟩)).getLast?
      = some (chars "7") :=
  ⟨by decide, by decide, by decide⟩

/-- Claim C7 (amended): the player file is fully rewritten on every run
(`player_content` is recomputed whole and written with mode `"w"`), with one
line per player in the three-field pipe format `nickname|tables|hands`; for
any nickname free of `|` and surrounding whitespace the line round trips
through `deserialized_indexed_player`. -/
theorem c7_player_line (p : IndexedPlayer) (h1 : '|' ∉ p.nickname)
    (h2 : pyStrip p.nickname = p.nickname) :
    pySplitC '|' (serialize_indexed_player p)
      = [p.nickname, intChars p.tables, intChars p.hands] ∧
    deserialized_indexed_player (serialize_indexed_player p) = .ok p := by
  have hsplit : pySplitC '|' (serialize_indexed_player p)
      = [p.nickname, intChars p.tables, intChars p.hands] := by
    unfold serialize_indexed_player
    refine pySplitC_joinSep '|' _ (by simp) ?_
    intro x hx
    simp at hx
    rcases hx with rfl | rfl | rfl
    · exact h1
    · exact not_mem_intChars (by decide) (by decide)
    · exact not_mem_intChars (by decide) (by decide)
  refine ⟨hsplit, ?_⟩
  unfold deserialized_indexed_player
  rw [hsplit]
  simp only [pyInt_intChars, h2]
  rfl

theorem c7_witness :
    pySplitC '|' (serialize_indexed_player ⟨chars "bob", 4, 9⟩)
      = [chars "bob", chars "4", chars "9"] ∧
    deserialized_indexed_player (serialize_indexed_player ⟨chars "bob", 4, 9⟩)
      = .ok ⟨chars "bob", 4, 9⟩ := by
  have h := c7_player_line ⟨chars "bob", 4, 9⟩ (by decide) (by decide)
  exact ⟨h.1.trans (by decide), h.2⟩

/-- Claim C8: the sum of the bucket counts over all `(regCount, fishCount)`
buckets produced by the statistics pass equals the number of files whose
table is found in the index and passes the interval and buy-in filters —
each surviving table lands in exactly one bucket. -/
theorem c8_bucket_totals (index : ℤ → Option Table)
    (players : PyStr → Option IndexedPlayer) (colored : PyStr → Option PlayerType)
    (calcmode : CalcMode) (rt rh : ℤ) (interval : PyStr × PyStr) (buyin : Option PyFloat)
    (buyinsort : List ℤ) (files : List TableFileMeta) :
    ∑ k ∈ (((get_stats index players colored calcmode rt rh interval buyin buyinsort
        files).table_stats.map Prod.fst : List (ℕ × ℕ)) : Multiset (ℕ × ℕ)).toFinset,
      (((get_stats index players colored calcmode rt rh interval buyin buyinsort
        files).table_stats.map Prod.fst : List (ℕ × ℕ)) : Multiset (ℕ × ℕ)).count k
      = (files.filter (survives index interval buyin)).length := by
  rw [Multiset.toFinset_sum_count_eq]
  have h := get_stats_fold_length index players colored calcmode rt rh interval buyin buyinsort
    files ⟨[], [], 0, 0, 0⟩
  unfold get_stats
  simpa using h

/-- Claim C9: `__get_table_data__` returns no table data exactly when at
least one of the three required summary fields (buy-in, prize pool,
tournament-start timestamp) has no line in the summary file, and
`__get_tables__` then drops that table and continues with the remaining
metas instead of failing the run. -/
theorem c9_summary_required_fields :
    (∀ (lines : List PyStr) (r : Option TableData × Bool), get_table_data lines = .ok r →
      (r.1 = none ↔
        (¬ ∃ l ∈ lines, pyStarts (chars "Buy-In") l = true) ∨
        (¬ ∃ l ∈ lines, pyStarts (chars "Prizepool") l = true) ∨
        (¬ ∃ l ∈ lines, pyStarts (chars "Tournament started") l = true))) ∧
    (∀ (env : Env) (m : TableFileMeta) (ms : List TableFileMeta) (w : Bool),
      get_table_data (env.fileLines m.tsdata_file) = .ok (none, w) →
      get_tables env (m :: ms) = get_tables env ms) := by
  constructor
  · intro lines r h
    unfold get_table_data at h
    cases hfold : lines.foldlM get_table_data_step ⟨none, none, none, false⟩ with
    | error e =>
      rw [hfold, except_bind_error] at h
      exact absurd h (by simp)
    | ok acc =>
      rw [hfold, except_bind_ok] at h
      obtain ⟨hb, hpz, hts⟩ := tdacc_fold_fields lines _ acc hfold
      dsimp only at hb hpz hts
      simp only [eq_self_iff_true, true_and] at hb hpz hts
      rw [all_false_iff_not_exists (fun l => pyStarts (chars "Buy-In") l) lines] at hb
      rw [all_false_iff_not_exists (fun l => pyStarts (chars "Prizepool") l) lines] at hpz
      rw [all_false_iff_not_exists (fun l => pyStarts (chars "Tournament started") l) lines]
        at hts
      rcases acc with ⟨bi, pz, ts, w'⟩
      dsimp only at hb hpz hts h
      cases bi <;> cases pz <;> cases ts <;>
        (injection h with h'; subst h'; simp at hb hpz hts ⊢ <;> tauto)
  · intro env m ms w h
    simp only [get_tables]
    rw [h, except_bind_ok]

theorem c9_witness :
    ((¬ ∃ l ∈ exSummaryMissing, pyStarts (chars "Buy-In") l = true) ∨
     (¬ ∃ l ∈ exSummaryMissing, pyStarts (chars "Prizepool") l = true) ∨
     (¬ ∃ l ∈ exSummaryMissing, pyStarts (chars "Tournament started") l = true)) ∧
    get_tables exEnvC9 [exMetaC9] = get_tables exEnvC9 [] :=
  ⟨(c9_summary_required_fields.1 exSummaryMissing (none, false) (by decide)).mp rfl,
   c9_summary_required_fields.2 exEnvC9 exMetaC9 [] false (by decide)⟩

/-- Claim C10, counterexample.  The stated conditions do not suffice: a
table whose timestamp contains a `|` serializes to a line with nine
pipe-fields, the eight-field unpack of `deserialize_table` raises, and the
round trip fails even though the players list is non-empty and every
nickname is delimiter-free with no surrounding whitespace. -/
theorem c10_counterexample :
    exTableBadTs.players ≠ [] ∧
    (∀ p ∈ exTableBadTs.players, nickOk p.nickname) ∧
    nickOk exTableBadTs.xa.nickname ∧
    deserialize_table (serialize_table exTableBadTs) = .error Err.valueError :=
  ⟨by decide, by decide, by decide, by decide⟩

/-- Claim C10 (amended): for every table whose players list is non-empty,
whose player nicknames and elimination nickname contain none of `|`, `:`,
`,` and no surrounding whitespace, and — additionally to the claim — whose
timestamp contains no `|`, `deserialize_table` inverts `serialize_table`
(the numeric fields range over canonical exact decimals, the model of the
reachable Python float values). -/
theorem c10_round_trip (t : Table)
    (hp : t.players ≠ [])
    (hnick : ∀ p ∈ t.players, nickOk p.nickname)
    (hxa : nickOk t.xa.nickname)
    (hts : '|' ∉ t.table_data.timestamp)
    (hpp : t.table_data.prize_pool.Canonical)
    (hbi : t.table_data.buy_in.Canonical) :
    deserialize_table (serialize_table t) = .ok t := by
  have hplayers : '|' ∉ pyJoinSep [','] (t.players.map serialize_player_field) := by
    intro hm
    rcases mem_pyJoinSep hm with hm | ⟨x, hx, hcm⟩
    · simp at hm
    · obtain ⟨p, hpmem, rfl⟩ := List.mem_map.mp hx
      unfold serialize_player_field at hcm
      rcases mem_pyJoinSep hcm with hc | ⟨y, hy, hcy⟩
      · simp at hc
      · simp at hy
        rcases hy with rfl | rfl | rfl
        · exact (hnick p hpmem).1 hcy
        · exact not_mem_intChars (by decide) (by decide) hcy
        · exact not_mem_intChars (by decide) (by decide) hcy
  have hxafield : '|' ∉ pyJoinSep [':']
      [t.xa.nickname, intChars t.xa.after_hand, t.xa.eliminated_by.val] := by
    intro hm
    rcases mem_pyJoinSep hm with hm | ⟨x, hx, hcm⟩
    · simp at hm
    · simp at hx
      rcases hx with rfl | rfl | rfl
      · exact hxa.1 hcm
      · exact not_mem_intChars (by decide) (by decide) hcm
      · exact (eliminated_val_no_delim t.xa.eliminated_by).1 hcm
  have hsplit : pySplitC '|' (serialize_table t)
      = [intChars t.id, t.table_data.timestamp, floatChars t.table_data.prize_pool,
         floatChars t.table_data.buy_in, intChars t.seat,
         pyJoinSep [','] (t.players.map serialize_player_field),
         pyJoinSep [':'] [t.xa.nickname, intChars t.xa.after_hand, t.xa.eliminated_by.val],
         intChars t.lost_after_hand] := by
    unfold serialize_table
    refine pySplitC_joinSep '|' _ (by simp) ?_
    intro x hx
    simp at hx
    rcases hx with rfl | rfl | rfl | rfl | rfl | rfl | rfl | rfl
    · exact not_mem_intChars (by decide) (by decide)
    · exact hts
    · exact not_mem_floatChars (by decide) (by decide) (by decide)
    · exact not_mem_floatChars (by decide) (by decide) (by decide)
    · exact not_mem_intChars (by decide) (by decide)
    · exact hplayers
    · exact hxafield
    · exact not_mem_intChars (by decide) (by decide)
  have hxasplit : pySplitC ':' (pyJoinSep [':']
      [t.xa.nickname, intChars t.xa.after_hand, t.xa.eliminated_by.val])
      = [t.xa.nickname, intChars t.xa.after_hand, t.xa.eliminated_by.val] := by
    refine pySplitC_joinSep ':' _ (by simp) ?_
    intro x hx
    simp at hx
    rcases hx with rfl | rfl | rfl
    · exact hxa.2.1
    · exact not_mem_intChars (by decide) (by decide)
    · exact (eliminated_val_no_delim t.xa.eliminated_by).2.1
  have hpsplit : pySplitC ',' (pyJoinSep [','] (t.players.map serialize_player_field))
      = t.players.map serialize_player_field := by
    refine pySplitC_joinSep ',' _ (by simpa using hp) ?_
    intro x hx
    obtain ⟨p, hpmem, rfl⟩ := List.mem_map.mp hx
    intro hm
    unfold serialize_player_field at hm
    rcases mem_pyJoinSep hm with hc | ⟨y, hy, hcy⟩
    · simp at hc
    · simp at hy
      rcases hy with rfl | rfl | rfl
      · exact (hnick p hpmem).2.2.1 hcy
      · exact not_mem_intChars (by decide) (by decide) hcy
      · exact not_mem_intChars (by decide) (by decide) hcy
  unfold deserialize_table
  rw [hsplit]
  simp only [hxasplit, hpsplit, pyFloat_floatChars _ hpp, pyFloat_floatChars _ hbi,
    mapM_deserialize_players t.players hnick, pyInt_intChars, eliminated_val_inv,
    hxa.2.2.2]
  rfl

theorem c10_witness : deserialize_table (serialize_table exTableEnd) = .ok exTableEnd :=
  c10_round_trip exTableEnd (by decide) (by decide) (by decide) (by decide) (by decide)
    (by decide)
